import Mathlib

/-!
# Verification of the pyth-sdk-js price-feed data model

Shallow embedding of the pyth-sdk-js repository: the schema-driven
validating transformer (`src/schemas/PriceFeed.ts`: `transform`, `cast`,
`uncast`, `invalidValue`, `typeMap`) and the `PriceFeed` model class
(`src/index.ts`: `fromJson`, `toJson`, `getCurrentPrice`, `getEmaPrice`,
`getLatestAvailablePriceUnchecked`, `getLatestAvailablePriceWithinDuration`).

JavaScript runtime values that can flow through the transformer are
modelled by `Json`: note the explicit `undef` constructor — the JS value
`undefined` is a first-class value here, because the transformer assigns
`result[prop.key] = transform(v, …)` unconditionally, so an object can own
a key whose value is `undefined`.  JS numbers are modelled as `Rat` (the
claims involve only exact comparisons, floor and absolute difference, on
which doubles and rationals agree for the magnitudes involved).

The TS `transform` recursion is unbounded; the embedding adds a fuel
argument consumed on every recursive step.  `castFuel = 10` dominates the
depth of the concrete `typeMap` schema (maximal chain: ref PriceFeed →
object → property → union → ref PriceFeedMetadata → object → property),
so the fuel never runs out on the schema the library actually uses.
-/

/-- A JavaScript runtime value reachable by the transformer.  Objects are
ordered association lists (JS objects iterate in insertion order); `undef`
is the JS value `undefined`. -/
inductive Json where
  | null
  | undef
  | bool (b : Bool)
  | num (q : Rat)
  | str (s : String)
  | arr (elems : List Json)
  | obj (fields : List (String × Json))
deriving Repr

/-- A schema type descriptor, mirroring the descriptor vocabulary of the
generated converter: `"any"`, `null`, `false`, the primitive tags `""`
(string), `0` (number) and `undefined`, enum case arrays, `u(...)` unions,
`a(...)` arrays, `o(props, additional)` objects whose props carry a
json-side name, a js-side name and a descriptor, and `r(name)` references
into `typeMap`. -/
inductive Typ where
  | any
  | tNull
  | tFalse
  | primString
  | primNumber
  | primUndefined
  | enum (cases : List String)
  | union (members : List Typ)
  | arrTyp (item : Typ)
  | objTyp (props : List (String × String × Typ)) (additional : Typ)
  | ref (name : String)
deriving Repr

/-- The direction of a conversion: `jsonToJS` is `cast` (reads the
json-side key, writes the js-side key, as built by `jsonToJSProps`),
`jsToJSON` is `uncast` (the inverse map built by `jsToJSONProps`). -/
inductive Dir where
  | jsonToJS
  | jsToJSON
deriving Repr, DecidableEq

/-- The key the conversion reads from the input object for a declared
property: `p.json` for `cast`, `p.js` for `uncast`. -/
def Dir.inKey : Dir → String × String × Typ → String
  | .jsonToJS, p => p.1
  | .jsToJSON, p => p.2.1

/-- The key the conversion writes into the result object (the `key` field
of the memoized props map, also passed as the `key` argument of the
recursive `transform` call on the property value). -/
def Dir.outKey : Dir → String × String × Typ → String
  | .jsonToJS, p => p.2.1
  | .jsToJSON, p => p.1

/-- What `invalidValue` stringifies as the expected shape. -/
inductive Expected where
  | descr (t : Typ)
  | cases (cs : List String)
  | unionOf (ts : List Typ)
  | lit (s : String)
  | exhausted
deriving Repr

/-- The content of the `Error` thrown by `invalidValue`: the offending
key (the empty string when `invalidValue` was called without a key, in
which case the message does not name any key), the expected descriptor
and the actual value. -/
structure TErr where
  key : String
  expected : Expected
  actual : Json
deriving Repr

/-- Reading `val[key]` (guarded by `Object.prototype.hasOwnProperty`) on a JS object: the
first binding of the key, if any. -/
def lookupJ : List (String × Json) → String → Option Json
  | [], _ => none
  | (k, v) :: rest, key => if k = key then some v else lookupJ rest key

/-- Assignment `result[key] = v` on a JS object: overwrite in place when the key is
already present, append otherwise. -/
def objInsert : List (String × Json) → String → Json → List (String × Json)
  | [], k, v => [(k, v)]
  | (k1, v1) :: rest, k, v =>
      if k1 = k then (k1, v) :: rest else (k1, v1) :: objInsert rest k v

/-- The declared properties of the `PriceFeed` schema node: json-side
name, js-side name, descriptor — in the declaration order of the
generated `typeMap`. -/
def pfProps : List (String × String × Typ) :=
  [("conf", "conf", .primString),
   ("ema_conf", "ema_conf", .primString),
   ("ema_price", "ema_price", .primString),
   ("expo", "expo", .primNumber),
   ("id", "id", .primString),
   ("max_num_publishers", "max_num_publishers", .primNumber),
   ("metadata", "metadata", .union [.primUndefined, .ref "PriceFeedMetadata"]),
   ("num_publishers", "num_publishers", .primNumber),
   ("prev_conf", "prev_conf", .primString),
   ("prev_price", "prev_price", .primString),
   ("prev_publish_time", "prev_publish_time", .primNumber),
   ("price", "price", .primString),
   ("product_id", "product_id", .primString),
   ("publish_time", "publish_time", .primNumber),
   ("status", "status", .ref "PriceStatus")]

/-- The declared properties of the `PriceFeedMetadata` schema node. -/
def metaProps : List (String × String × Typ) :=
  [("attestation_time", "attestation_time", .primNumber),
   ("emitter_chain", "emitter_chain", .primNumber),
   ("sequence_number", "sequence_number", .primNumber)]

/-- The `typeMap` of the generated converter.  An unknown name behaves
like the JS lookup `typeMap[name] === undefined`, which the `while` loop
then leaves in place and the primitive check treats as the descriptor
`undefined`. -/
def typeMap : String → Typ
  | "PriceFeed" => .objTyp pfProps .any
  | "PriceFeedMetadata" => .objTyp metaProps .any
  | "PriceStatus" => .enum ["Auction", "Halted", "Trading", "Unknown"]
  | _ => .primUndefined

/-- The helper `transformEnum(cases, val)`: the value must be one of the enumerated
literal strings (`cases.indexOf(val) !== -1`); any other value — of any
runtime type — fails through `invalidValue(cases, val)`, which is called
WITHOUT a key. -/
def transformEnum (cases : List String) (val : Json) : Except TErr Json :=
  match val with
  | .str s => if s ∈ cases then .ok (.str s) else .error ⟨"", .cases cases, val⟩
  | _ => .error ⟨"", .cases cases, val⟩

/-- The helper `transformUnion(typs, val)`: try the members in order (each recursive
call made without a key, so member failures are swallowed by the
`try`/`catch`); the first success wins; when every member fails, fail
through `invalidValue(typs, val)` with the full member list and no key.
The loop is rendered as a right fold whose default is the final error;
because the transformer is pure, this evaluation order is observably the
source's try-in-order. -/
def transformUnion (rec : Json → Typ → Dir → String → Except TErr Json)
    (typs : List Typ) (val : Json) (dir : Dir) : Except TErr Json :=
  typs.foldr
    (fun t acc =>
      match rec val t dir "" with
      | .ok r => .ok r
      | .error _ => acc)
    (.error ⟨"", .unionOf typs, val⟩)

/-- The helper `transformArray(typ, val)`: the value must be an array (else
`invalidValue("array", val)`, no key) and every element is converted
recursively (no key); the first element failure aborts the whole map. -/
def transformArray (rec : Json → Typ → Dir → String → Except TErr Json)
    (item : Typ) (val : Json) (dir : Dir) : Except TErr Json :=
  match val with
  | .arr xs =>
      match xs.foldr
          (fun x (acc : Except TErr (List Json)) =>
            match rec x item dir "" with
            | .error e => .error e
            | .ok y =>
                match acc with
                | .error e => .error e
                | .ok ys => .ok (y :: ys))
          (.ok []) with
      | .ok ys => .ok (.arr ys)
      | .error e => .error e
  | _ => .error ⟨"", .lit "array", val⟩

/-- One iteration of `transformObject`'s declared-property loop: from the
accumulated result object, read the input at the direction's input key —
an absent key contributes the value `undefined` — convert it with the
property's descriptor, passing the OUTPUT key as the ambient `key`, and
assign the result at the output key. -/
def propStep (rec : Json → Typ → Dir → String → Except TErr Json)
    (fields : List (String × Json)) (dir : Dir)
    (acc : Except TErr (List (String × Json))) (p : String × String × Typ) :
    Except TErr (List (String × Json)) :=
  match acc with
  | .error e => .error e
  | .ok r =>
      match rec ((lookupJ fields (dir.inKey p)).getD .undef) p.2.2 dir
          (dir.outKey p) with
      | .error e => .error e
      | .ok rv => .ok (objInsert r (dir.outKey p) rv)

/-- The helper `transformObject`, first loop, over the declared properties in
declaration order; the first failure aborts. -/
def transformObjectProps (rec : Json → Typ → Dir → String → Except TErr Json)
    (props : List (String × String × Typ)) (fields : List (String × Json))
    (dir : Dir) : Except TErr (List (String × Json)) :=
  props.foldl (propStep rec fields dir) (.ok [])

/-- One iteration of `transformObject`'s additional-property loop: an
input key that is a declared input-side key is skipped; any other key is
converted with the `additional` descriptor (its own key as the ambient
key) and assigned under its unchanged key. -/
def extraStep (rec : Json → Typ → Dir → String → Except TErr Json)
    (additional : Typ) (props : List (String × String × Typ)) (dir : Dir)
    (acc : Except TErr (List (String × Json))) (kv : String × Json) :
    Except TErr (List (String × Json)) :=
  if props.any (fun p => dir.inKey p = kv.1) then acc
  else
    match acc with
    | .error e => .error e
    | .ok r =>
        match rec kv.2 additional dir kv.1 with
        | .error e => .error e
        | .ok rv => .ok (objInsert r kv.1 rv)

/-- The helper `transformObject`, second loop, over the input's own keys. -/
def transformObjectExtra (rec : Json → Typ → Dir → String → Except TErr Json)
    (additional : Typ) (props : List (String × String × Typ))
    (fields : List (String × Json)) (dir : Dir)
    (init : List (String × Json)) : Except TErr (List (String × Json)) :=
  fields.foldl (extraStep rec additional props dir) (.ok init)

/-- The helper `transformObject(props, additional, val)`: `null`, arrays and
non-objects fail through `invalidValue("object", val)` (no key);
otherwise the declared-property loop runs, then the additional-property
loop, building the result object by JS property assignment. -/
def transformObject (rec : Json → Typ → Dir → String → Except TErr Json)
    (props : List (String × String × Typ)) (additional : Typ) (val : Json)
    (dir : Dir) : Except TErr Json :=
  match val with
  | .obj fields =>
      match transformObjectProps rec props fields dir with
      | .error e => .error e
      | .ok acc =>
          match transformObjectExtra rec additional props fields dir acc with
          | .error e => .error e
          | .ok acc2 => .ok (.obj acc2)
  | _ => .error ⟨"", .lit "object", val⟩

/-- The recursive validator/converter `transform(val, typ, getProps, key)`.
Dispatch order and error construction follow the source: `"any"` returns
the value unchanged, `null` and `false` are special-cased (without key),
references are resolved through `typeMap` (the `while` loop), enum
arrays, unions, arrays and objects dispatch to their helpers (which
receive the recursion as a closure, as in the source), and the primitive
check compares runtime type tags, failing through
`invalidValue(typ, val, key)` with the ambient key. -/
def transform : Nat → Json → Typ → Dir → String → Except TErr Json
  | 0, val, _, _, _ => .error ⟨"", .exhausted, val⟩
  | fuel + 1, val, typ, dir, key =>
    match typ with
    | .any => .ok val
    | .tNull =>
        match val with
        | .null => .ok .null
        | _ => .error ⟨"", .descr .tNull, val⟩
    | .tFalse => .error ⟨"", .descr .tFalse, val⟩
    | .ref n => transform fuel val (typeMap n) dir key
    | .enum cs => transformEnum cs val
    | .union ms => transformUnion (fun v t d k => transform fuel v t d k) ms val dir
    | .arrTyp item =>
        transformArray (fun v t d k => transform fuel v t d k) item val dir
    | .objTyp props additional =>
        transformObject (fun v t d k => transform fuel v t d k) props additional
          val dir
    | .primString =>
        match val with
        | .str s => .ok (.str s)
        | _ => .error ⟨key, .descr .primString, val⟩
    | .primNumber =>
        match val with
        | .num q => .ok (.num q)
        | _ => .error ⟨key, .descr .primNumber, val⟩
    | .primUndefined =>
        match val with
        | .undef => .ok .undef
        | _ => .error ⟨key, .descr .primUndefined, val⟩

/-- Fuel that dominates the recursion depth of the concrete schema. -/
def castFuel : Nat := 10

/-- The entry point `Convert.toPriceFeed(json) = cast(json, r("PriceFeed"))`. -/
def Convert.toPriceFeed (j : Json) : Except TErr Json :=
  transform castFuel j (.ref "PriceFeed") .jsonToJS ""

/-- The entry point `Convert.priceFeedToJson(value) = uncast(value, r("PriceFeed"))`. -/
def Convert.priceFeedToJson (j : Json) : Except TErr Json :=
  transform castFuel j (.ref "PriceFeed") .jsToJSON ""

/-!
## The PriceFeed model class (`src/index.ts`)
-/

/-- The closed string enumeration `PriceStatus`. -/
inductive PriceStatus where
  | Auction
  | Halted
  | Trading
  | Unknown
deriving Repr, DecidableEq

/-- The runtime string value of a `PriceStatus` member. -/
def PriceStatus.toStr : PriceStatus → String
  | .Auction => "Auction"
  | .Halted => "Halted"
  | .Trading => "Trading"
  | .Unknown => "Unknown"

/-- Reading a validated status string back into the enumeration. -/
def statusFromString : String → Option PriceStatus
  | "Auction" => some .Auction
  | "Halted" => some .Halted
  | "Trading" => some .Trading
  | "Unknown" => some .Unknown
  | _ => none

/-- The `Price` value class: `constructor(conf, expo, price)`. -/
structure Price where
  conf : String
  expo : Rat
  price : String
deriving Repr, DecidableEq

/-- The `PriceFeed` class fields.  `metadata` holds the converter's output
object when the source JSON supplied one (`undefined`, modelled as `none`,
otherwise); the TS class stores that object reference as is. -/
structure PriceFeed where
  conf : String
  emaConf : String
  emaPrice : String
  expo : Rat
  id : String
  maxNumPublishers : Rat
  metadata : Option Json
  numPublishers : Rat
  prevConf : String
  prevPrice : String
  prevPublishTime : Rat
  price : String
  productId : String
  publishTime : Rat
  status : PriceStatus
deriving Repr

/-- Specialisation of `lookupJ` reading a string-valued field. -/
def getStrF (fs : List (String × Json)) (k : String) : Option String :=
  match lookupJ fs k with
  | some (.str s) => some s
  | _ => none

/-- Specialisation of `lookupJ` reading a number-valued field. -/
def getNumF (fs : List (String × Json)) (k : String) : Option Rat :=
  match lookupJ fs k with
  | some (.num q) => some q
  | _ => none

/-- The field reads `jsonFeed.conf`, `jsonFeed.ema_conf`, … performed by
`PriceFeed.fromJson` on the object returned by `Convert.toPriceFeed`.
They cannot fail on a converter output (proved below), so the `Option`
failure branch is unreachable. -/
def extractFeed (r : Json) : Option PriceFeed :=
  match r with
  | .obj fs => do
      let conf ← getStrF fs "conf"
      let emaConf ← getStrF fs "ema_conf"
      let emaPrice ← getStrF fs "ema_price"
      let expo ← getNumF fs "expo"
      let id ← getStrF fs "id"
      let maxNumPublishers ← getNumF fs "max_num_publishers"
      let metadata : Option Json :=
        match lookupJ fs "metadata" with
        | some .undef => none
        | some m => some m
        | none => none
      let numPublishers ← getNumF fs "num_publishers"
      let prevConf ← getStrF fs "prev_conf"
      let prevPrice ← getStrF fs "prev_price"
      let prevPublishTime ← getNumF fs "prev_publish_time"
      let price ← getStrF fs "price"
      let productId ← getStrF fs "product_id"
      let publishTime ← getNumF fs "publish_time"
      let statusStr ← getStrF fs "status"
      let status ← statusFromString statusStr
      pure ⟨conf, emaConf, emaPrice, expo, id, maxNumPublishers, metadata,
            numPublishers, prevConf, prevPrice, prevPublishTime, price,
            productId, publishTime, status⟩
  | _ => none

/-- The static method `PriceFeed.fromJson`: run `Convert.toPriceFeed` and copy the declared
fields into a fresh `PriceFeed`.  A validation failure propagates; the
`extractFeed` failure branch is unreachable for converter outputs. -/
def PriceFeed.fromJson (j : Json) : Except TErr PriceFeed :=
  match Convert.toPriceFeed j with
  | .error e => .error e
  | .ok r =>
      match extractFeed r with
      | some f => .ok f
      | none => .error ⟨"", .lit "unreachable", r⟩

/-- The method `PriceFeed.toJson`: build the snake_case object literal (an absent
metadata appears as the key bound to `undefined`, exactly as the TS
object literal `{ …, metadata: this.metadata, … }` does) and run
`Convert.priceFeedToJson` on it. -/
def PriceFeed.toJson (f : PriceFeed) : Except TErr Json :=
  Convert.priceFeedToJson (.obj
    [("conf", .str f.conf),
     ("ema_conf", .str f.emaConf),
     ("ema_price", .str f.emaPrice),
     ("expo", .num f.expo),
     ("id", .str f.id),
     ("max_num_publishers", .num f.maxNumPublishers),
     ("metadata", f.metadata.getD .undef),
     ("num_publishers", .num f.numPublishers),
     ("prev_conf", .str f.prevConf),
     ("prev_price", .str f.prevPrice),
     ("prev_publish_time", .num f.prevPublishTime),
     ("price", .str f.price),
     ("product_id", .str f.productId),
     ("publish_time", .num f.publishTime),
     ("status", .str f.status.toStr)])

/-- The accessor `getCurrentPrice()`: `undefined` unless the status is `Trading`. -/
def PriceFeed.getCurrentPrice (f : PriceFeed) : Option Price :=
  if f.status ≠ .Trading then none
  else some ⟨f.conf, f.expo, f.price⟩

/-- The accessor `getEmaPrice()`: always a fresh `Price` from the EMA fields. -/
def PriceFeed.getEmaPrice (f : PriceFeed) : Option Price :=
  some ⟨f.emaConf, f.expo, f.emaPrice⟩

/-- The accessor `getLatestAvailablePriceUnchecked()`. -/
def PriceFeed.getLatestAvailablePriceUnchecked (f : PriceFeed) : Price × Rat :=
  if f.status = .Trading then (⟨f.conf, f.expo, f.price⟩, f.publishTime)
  else (⟨f.prevConf, f.expo, f.prevPrice⟩, f.prevPublishTime)

/-- The accessor `getLatestAvailablePriceWithinDuration(duration)`.  The wall-clock
reading `currentTime = Math.floor(Date.now() / 1000)` is an integer input
of the model (the sole impure read of the class). -/
def PriceFeed.getLatestAvailablePriceWithinDuration (f : PriceFeed)
    (duration : Rat) (currentTime : Int) : Option Price :=
  let pt := f.getLatestAvailablePriceUnchecked
  if |(currentTime : Rat) - pt.2| > duration then none
  else some pt.1

/-!
## Sample feeds (the values of the repository's own test input)
-/

/-- The test input of `src/__tests__/PriceFeed.test.ts`, with `Trading`
status, as an already-constructed feed. -/
def sampleTrading : PriceFeed :=
  ⟨"1", "2", "3", 4, "abcdef0123456789", 6, none, 5, "7", "8", 9, "10",
   "0123456789abcdef", 11, .Trading⟩

/-- The same feed with `Unknown` status. -/
def sampleUnknown : PriceFeed :=
  ⟨"1", "2", "3", 4, "abcdef0123456789", 6, none, 5, "7", "8", 9, "10",
   "0123456789abcdef", 11, .Unknown⟩

/-!
## C2, C3, C6 — the accessors
-/

/-- C3: `getCurrentPrice()` returns absence iff `status != Trading`; when
the status is `Trading` it returns a `Price` whose `price`, `conf` and
`expo` components are the feed's fields verbatim. -/
theorem getCurrentPrice_spec (f : PriceFeed) :
    (f.getCurrentPrice = none ↔ f.status ≠ .Trading) ∧
    (f.status = .Trading → f.getCurrentPrice = some ⟨f.conf, f.expo, f.price⟩) := by
  unfold PriceFeed.getCurrentPrice
  constructor
  · split <;> simp_all
  · intro h
    simp [h]

/-- Witness for C3 at the repository's test feed. -/
theorem getCurrentPrice_spec_witness :
    sampleTrading.getCurrentPrice =
      some ⟨sampleTrading.conf, sampleTrading.expo, sampleTrading.price⟩ :=
  (getCurrentPrice_spec sampleTrading).2 rfl

/-- C6: `getLatestAvailablePriceUnchecked()` returns the current price
and `publishTime` when the status is `Trading`, and the previous-trading
snapshot with `prevPublishTime` for every other status.  It is a total
function into `Price × Rat` — no absence, no error. -/
theorem getLatestAvailablePriceUnchecked_spec (f : PriceFeed) :
    (f.status = .Trading →
      f.getLatestAvailablePriceUnchecked =
        (⟨f.conf, f.expo, f.price⟩, f.publishTime)) ∧
    (f.status ≠ .Trading →
      f.getLatestAvailablePriceUnchecked =
        (⟨f.prevConf, f.expo, f.prevPrice⟩, f.prevPublishTime)) := by
  unfold PriceFeed.getLatestAvailablePriceUnchecked
  constructor
  · intro h; simp [h]
  · intro h; simp [h]

/-- Witness for C6 at the test feed with non-`Trading` status. -/
theorem getLatestAvailablePriceUnchecked_spec_witness :
    sampleUnknown.getLatestAvailablePriceUnchecked =
      (⟨sampleUnknown.prevConf, sampleUnknown.expo, sampleUnknown.prevPrice⟩,
       sampleUnknown.prevPublishTime) :=
  (getLatestAvailablePriceUnchecked_spec sampleUnknown).2 (by decide)

/-- C2: `getLatestAvailablePriceWithinDuration(d)` at a wall-clock
reading `now` returns absence iff `|now - t| > d` where `(p, t)` is the
pair of `getLatestAvailablePriceUnchecked()`; otherwise it returns `p`.
The comparison uses the absolute difference, so future-dated timestamps
beyond the window are rejected like stale ones, and `|now - t| = d` is
accepted. -/
theorem getLatestAvailablePriceWithinDuration_spec (f : PriceFeed) (d : Rat)
    (now : Int) :
    (f.getLatestAvailablePriceWithinDuration d now = none ↔
      |(now : Rat) - f.getLatestAvailablePriceUnchecked.2| > d) ∧
    (|(now : Rat) - f.getLatestAvailablePriceUnchecked.2| ≤ d →
      f.getLatestAvailablePriceWithinDuration d now =
        some f.getLatestAvailablePriceUnchecked.1) := by
  simp only [PriceFeed.getLatestAvailablePriceWithinDuration]
  constructor
  · split <;> simp_all
  · intro h
    rw [if_neg (by simpa using h)]

/-- Witness for C2 at the boundary `|now - t| = d` (test feed, timestamp
11, wall clock 20, duration 9): the price is returned. -/
theorem getLatestAvailablePriceWithinDuration_spec_witness :
    |((20 : Int) : Rat) - sampleTrading.getLatestAvailablePriceUnchecked.2| ≤ 9 ∧
    sampleTrading.getLatestAvailablePriceWithinDuration 9 20 =
      some sampleTrading.getLatestAvailablePriceUnchecked.1 :=
  ⟨by norm_num [sampleTrading, PriceFeed.getLatestAvailablePriceUnchecked],
   (getLatestAvailablePriceWithinDuration_spec sampleTrading 9 20).2
     (by norm_num [sampleTrading, PriceFeed.getLatestAvailablePriceUnchecked])⟩

/-!
## C7 — union semantics
-/

/-- Whether a conversion succeeded. -/
def isOkE (r : Except TErr Json) : Bool :=
  match r with
  | .ok _ => true
  | .error _ => false

/-- The union fold over a member list returns the result of the first
member that validates, and the fold's default when none does. -/
theorem unionFold_eq_find (rec : Json → Typ → Dir → String → Except TErr Json)
    (ts : List Typ) (val : Json) (dir : Dir) (e : Except TErr Json) :
    ts.foldr
      (fun t acc =>
        match rec val t dir "" with
        | .ok r => .ok r
        | .error _ => acc) e =
      match ts.find? (fun t => isOkE (rec val t dir "")) with
      | some t => rec val t dir ""
      | none => e := by
  induction ts with
  | nil => simp
  | cons t ts ih =>
      rw [List.foldr_cons, List.find?]
      cases h : rec val t dir "" with
      | ok r => simp [isOkE, h]
      | error e2 => simp [isOkE, h, ih]

/-- C7: for every union descriptor (an ordered member list) and every
value, the transformer tries the members in list order and returns the
result of the first member against which the value validates; when no
member validates it fails with an error listing the full union of member
descriptors (and, matching `invalidValue(typs, val)` with its defaulted
key argument, no key). -/
theorem transformUnion_first_success (fuel : Nat) (ms : List Typ) (val : Json)
    (dir : Dir) (key : String) :
    transform (fuel + 1) val (.union ms) dir key =
      match ms.find? (fun t => isOkE (transform fuel val t dir "")) with
      | some t => transform fuel val t dir ""
      | none => .error ⟨"", .unionOf ms, val⟩ := by
  rw [show transform (fuel + 1) val (.union ms) dir key =
      transformUnion (fun v t d k => transform fuel v t d k) ms val dir from rfl]
  exact unionFold_eq_find _ ms val dir _

/-!
## C10 — the two directions agree on the concrete schema
-/

mutual

/-- Every declared property of the descriptor (recursively) has identical
json-side and js-side key names.  References are not chased here; the
`typeMap` entries are each checked separately. -/
def selfKeyedB : Typ → Bool
  | .any | .tNull | .tFalse | .primString | .primNumber | .primUndefined => true
  | .enum _ => true
  | .ref _ => true
  | .union ms => selfKeyedList ms
  | .arrTyp t => selfKeyedB t
  | .objTyp ps add => selfKeyedProps ps && selfKeyedB add

/-- Extension of `selfKeyedB` over a union member list. -/
def selfKeyedList : List Typ → Bool
  | [] => true
  | t :: ts => selfKeyedB t && selfKeyedList ts

/-- Extension of `selfKeyedB` over a property list. -/
def selfKeyedProps : List (String × String × Typ) → Bool
  | [] => true
  | (j, s, t) :: ps => (j == s) && selfKeyedB t && selfKeyedProps ps

end

/-- Every `typeMap` entry is self-keyed. -/
theorem typeMap_selfKeyed (n : String) : selfKeyedB (typeMap n) = true := by
  unfold typeMap
  split <;> simp [selfKeyedB, selfKeyedList, selfKeyedProps]

/-- On a self-keyed property, both directions read the same input key. -/
theorem inKey_dir_eq (p : String × String × Typ) (h : p.1 = p.2.1)
    (d1 d2 : Dir) : d1.inKey p = d2.inKey p := by
  cases d1 <;> cases d2 <;> simp [Dir.inKey, h]

/-- On a self-keyed property, both directions write the same output key. -/
theorem outKey_dir_eq (p : String × String × Typ) (h : p.1 = p.2.1)
    (d1 d2 : Dir) : d1.outKey p = d2.outKey p := by
  cases d1 <;> cases d2 <;> simp [Dir.outKey, h]

/-- On a self-keyed property list, the declared-key test of the
`additional` loop does not depend on the direction. -/
theorem any_inKey_dir_eq (props : List (String × String × Typ))
    (h : selfKeyedProps props = true) (d1 d2 : Dir) (k : String) :
    (props.any fun p => d1.inKey p = k) = (props.any fun p => d2.inKey p = k) := by
  induction props with
  | nil => rfl
  | cons p ps ih =>
      obtain ⟨j, s, t⟩ := p
      simp only [selfKeyedProps, Bool.and_eq_true, beq_iff_eq] at h
      simp only [List.any_cons, inKey_dir_eq (j, s, t) h.1.1 d1 d2, ih h.2]

/-- On a self-keyed descriptor the converter's result does not depend on
the direction: the json→typed and typed→json algorithms are the same
function. -/
theorem transform_dir_irrel : ∀ fuel val typ (d1 d2 : Dir) key,
    selfKeyedB typ = true →
    transform fuel val typ d1 key = transform fuel val typ d2 key := by
  intro fuel
  induction fuel with
  | zero => intro val typ d1 d2 key _; simp [transform]
  | succ fuel ih =>
    have hu : ∀ (ms : List Typ) val (d1 d2 : Dir) (e : Except TErr Json),
        selfKeyedList ms = true →
        ms.foldr
          (fun t acc =>
            match transform fuel val t d1 "" with
            | .ok r => .ok r
            | .error _ => acc) e =
        ms.foldr
          (fun t acc =>
            match transform fuel val t d2 "" with
            | .ok r => .ok r
            | .error _ => acc) e := by
      intro ms val d1 d2 e
      induction ms with
      | nil => intro _; rfl
      | cons t ts ihm =>
          intro hms
          simp only [selfKeyedList, Bool.and_eq_true] at hms
          rw [List.foldr_cons, List.foldr_cons, ih val t d1 d2 "" hms.1, ihm hms.2]
    have ha : ∀ item (xs : List Json) (d1 d2 : Dir), selfKeyedB item = true →
        xs.foldr
          (fun x (acc : Except TErr (List Json)) =>
            match transform fuel x item d1 "" with
            | .error e => .error e
            | .ok y =>
                match acc with
                | .error e => .error e
                | .ok ys => .ok (y :: ys)) (.ok []) =
        xs.foldr
          (fun x (acc : Except TErr (List Json)) =>
            match transform fuel x item d2 "" with
            | .error e => .error e
            | .ok y =>
                match acc with
                | .error e => .error e
                | .ok ys => .ok (y :: ys)) (.ok []) := by
      intro item xs d1 d2 h
      induction xs with
      | nil => rfl
      | cons x xs ihx =>
          rw [List.foldr_cons, List.foldr_cons, ih x item d1 d2 "" h, ihx]
    have hp : ∀ (ps : List (String × String × Typ)) (fields : List (String × Json))
        (d1 d2 : Dir) (a : Except TErr (List (String × Json))),
        selfKeyedProps ps = true →
        ps.foldl (propStep (fun v t d k => transform fuel v t d k) fields d1) a =
        ps.foldl (propStep (fun v t d k => transform fuel v t d k) fields d2) a := by
      intro ps fields d1 d2
      induction ps with
      | nil => intro a _; rfl
      | cons p ps ihp =>
          intro a hps
          obtain ⟨j, s, t⟩ := p
          simp only [selfKeyedProps, Bool.and_eq_true, beq_iff_eq] at hps
          rw [List.foldl_cons, List.foldl_cons]
          have hstep : propStep (fun v t d k => transform fuel v t d k) fields d1 a
              (j, s, t) =
              propStep (fun v t d k => transform fuel v t d k) fields d2 a (j, s, t) := by
            simp only [propStep, inKey_dir_eq (j, s, t) hps.1.1 d1 d2,
              outKey_dir_eq (j, s, t) hps.1.1 d1 d2,
              ih ((lookupJ fields (d2.inKey (j, s, t))).getD .undef) t d1 d2
                (d2.outKey (j, s, t)) hps.1.2]
          rw [hstep, ihp _ hps.2]
    have he : ∀ (add : Typ) (props : List (String × String × Typ))
        (fs : List (String × Json)) (d1 d2 : Dir)
        (a : Except TErr (List (String × Json))),
        selfKeyedProps props = true → selfKeyedB add = true →
        fs.foldl (extraStep (fun v t d k => transform fuel v t d k) add props d1) a =
        fs.foldl (extraStep (fun v t d k => transform fuel v t d k) add props d2) a := by
      intro add props fs d1 d2
      induction fs with
      | nil => intro a _ _; rfl
      | cons kv rest ihf =>
          intro a hps hadd
          obtain ⟨k, v⟩ := kv
          rw [List.foldl_cons, List.foldl_cons]
          have hstep : extraStep (fun v t d k => transform fuel v t d k) add props d1 a
              (k, v) =
              extraStep (fun v t d k => transform fuel v t d k) add props d2 a (k, v) := by
            simp only [extraStep, any_inKey_dir_eq props hps d1 d2 k,
              ih v add d1 d2 k hadd]
          rw [hstep, ihf _ hps hadd]
    intro val typ d1 d2 key h
    cases typ with
    | any => simp [transform]
    | tNull => cases val <;> simp [transform]
    | tFalse => simp [transform]
    | primString => cases val <;> simp [transform]
    | primNumber => cases val <;> simp [transform]
    | primUndefined => cases val <;> simp [transform]
    | enum cs => simp [transform]
    | ref n =>
        simp only [transform]
        exact ih val (typeMap n) d1 d2 key (typeMap_selfKeyed n)
    | union ms =>
        simp only [transform, transformUnion]
        exact hu ms val d1 d2 _ (by simpa [selfKeyedB] using h)
    | arrTyp item =>
        simp only [selfKeyedB] at h
        cases val <;> simp only [transform, transformArray]
        next xs => rw [ha item xs d1 d2 h]
    | objTyp ps add =>
        simp only [selfKeyedB, Bool.and_eq_true] at h
        cases val <;>
          simp only [transform, transformObject, transformObjectProps,
            transformObjectExtra]
        next fields =>
          rw [hp ps fields d1 d2 (.ok []) h.1]
          have he2 : ∀ (a : Except TErr (List (String × Json))),
              fields.foldl
                (extraStep (fun v t d k => transform fuel v t d k) add ps d1) a =
              fields.foldl
                (extraStep (fun v t d k => transform fuel v t d k) add ps d2) a :=
            fun a => he add ps fields d1 d2 a h.1 h.2
          simp only [he2]

/-- C10: because every declared property of the `PriceFeed` and
`PriceFeedMetadata` schema nodes has identical json-side and js-side key
names, `Convert.toPriceFeed` (via `jsonToJSProps`) and
`Convert.priceFeedToJson` (via `jsToJSONProps`) are extensionally equal:
on every input value they produce the same outcome — the same error or
the same (hence deep-equal) result. -/
theorem convert_directions_agree (j : Json) :
    Convert.toPriceFeed j = Convert.priceFeedToJson j := by
  unfold Convert.toPriceFeed Convert.priceFeedToJson
  exact transform_dir_irrel castFuel j (.ref "PriceFeed") .jsonToJS .jsToJSON ""
    (by simp [selfKeyedB])

/-!
## C4, C8 — validation failures and primitive tag checking
-/

/-- The repository's own test input (`src/__tests__/PriceFeed.test.ts`),
as raw JSON fields in its literal key order. -/
def sampleJsonFields : List (String × Json) :=
  [("conf", .str "1"), ("ema_conf", .str "2"), ("ema_price", .str "3"),
   ("expo", .num 4), ("id", .str "abcdef0123456789"),
   ("max_num_publishers", .num 6), ("num_publishers", .num 5),
   ("prev_conf", .str "7"), ("prev_price", .str "8"),
   ("prev_publish_time", .num 9), ("price", .str "10"),
   ("product_id", .str "0123456789abcdef"), ("publish_time", .num 11),
   ("status", .str "Trading")]

/-- Counterexample to C4: with `status: "Bogus"` (an enum-membership
failure) the error carries the EMPTY key — `transformEnum` calls
`invalidValue(cases, val)` without its key argument, so the thrown
message is `Invalid value "Bogus" for type [...]`, which does not name
the failing key `status`. -/
theorem malformed_enum_misses_key :
    PriceFeed.fromJson (.obj (objInsert sampleJsonFields "status" (.str "Bogus"))) =
      .error ⟨"", .cases ["Auction", "Halted", "Trading", "Unknown"],
        .str "Bogus"⟩ ∧
    ("" : String) ≠ "status" := by
  exact ⟨rfl, by decide⟩

/-- C4 as amended: every schema mismatch raises a Malformed Input error
carrying the expected descriptor and the actual value, but only
primitive-type mismatches (such as `expo` given as a string) name the
failing key; enum-membership failures report the empty key. -/
theorem invalid_value_key_reporting (fuel : Nat) (v : Json) (dir : Dir)
    (key key2 : String) (cs : List String) (s : String)
    (hv : ∀ q, v ≠ .num q) (hs : s ∉ cs) :
    transform (fuel + 1) v .primNumber dir key =
      .error ⟨key, .descr .primNumber, v⟩ ∧
    transform (fuel + 1) (.str s) (.enum cs) dir key2 =
      .error ⟨"", .cases cs, .str s⟩ := by
  constructor
  · cases v <;> simp [transform]
    exact absurd rfl (hv _)
  · simp [transform, transformEnum, hs]

/-- Witness for the amended C4 at the spec's own examples: `expo` given
as the string `"4"` produces an error naming the key `expo`; `status`
given as `"Bogus"` produces an error with the empty key. -/
theorem invalid_value_key_reporting_witness :
    transform (9 + 1) (.str "4") .primNumber .jsonToJS "expo" =
      .error ⟨"expo", .descr .primNumber, .str "4"⟩ ∧
    transform (9 + 1) (.str "Bogus")
        (.enum ["Auction", "Halted", "Trading", "Unknown"]) .jsonToJS "status" =
      .error ⟨"", .cases ["Auction", "Halted", "Trading", "Unknown"],
        .str "Bogus"⟩ :=
  invalid_value_key_reporting 9 (.str "4") .jsonToJS "expo" "status"
    ["Auction", "Halted", "Trading", "Unknown"] "Bogus"
    (fun q h => Json.noConfusion h) (by decide)

/-- The feed parsed from the test input with `expo` replaced by the
non-integer number `4.5`. -/
def sampleFeed45 : PriceFeed :=
  ⟨"1", "2", "3", 9 / 2, "abcdef0123456789", 6, none, 5, "7", "8", 9, "10",
   "0123456789abcdef", 11, .Trading⟩

/-- C8: primitive validation only compares runtime type tags
(`typeof typ === typeof val`), so a field declared with the integer
descriptor `0` accepts every number: any `Json.num` passes the
`primNumber` check unchanged, and concretely `fromJson` succeeds on the
test input with `expo: 4.5`, storing exactly `4.5`. -/
theorem primNumber_accepts_any_number :
    (∀ (fuel : Nat) (q : Rat) (dir : Dir) (key : String),
      transform (fuel + 1) (.num q) .primNumber dir key = .ok (.num q)) ∧
    PriceFeed.fromJson (.obj (objInsert sampleJsonFields "expo" (.num (9 / 2)))) =
      .ok sampleFeed45 ∧
    sampleFeed45.expo = 9 / 2 := by
  refine ⟨fun fuel q dir key => by simp [transform], rfl, rfl⟩

/-!
## Association-list lemmas for the round-trip analysis (C1, C5, C9)
-/

/-- JS objects cannot bind one key twice; an embedded object is
well-formed when its keys are pairwise distinct. -/
def keysNodup : List (String × Json) → Bool
  | [] => true
  | (k, _) :: rest => !(rest.any (fun kv => kv.1 = k)) && keysNodup rest

theorem lookupJ_append_none {a : List (String × Json)} {k : String}
    (h : lookupJ a k = none) (b : List (String × Json)) :
    lookupJ (a ++ b) k = lookupJ b k := by
  induction a with
  | nil => rfl
  | cons kv rest ih =>
      obtain ⟨k1, v1⟩ := kv
      rw [lookupJ] at h
      rw [List.cons_append, lookupJ]
      split at h
      · exact absurd h (by simp)
      · next hne => rw [if_neg hne]; exact ih h

theorem lookupJ_append_some {a : List (String × Json)} {k : String} {v : Json}
    (h : lookupJ a k = some v) (b : List (String × Json)) :
    lookupJ (a ++ b) k = some v := by
  induction a with
  | nil => simp [lookupJ] at h
  | cons kv rest ih =>
      obtain ⟨k1, v1⟩ := kv
      rw [lookupJ] at h
      rw [List.cons_append, lookupJ]
      split at h
      · next he => rw [if_pos he]; exact h
      · next hne => rw [if_neg hne]; exact ih h

theorem objInsert_fresh {a : List (String × Json)} {k : String}
    (h : lookupJ a k = none) (v : Json) : objInsert a k v = a ++ [(k, v)] := by
  induction a with
  | nil => rfl
  | cons kv rest ih =>
      obtain ⟨k1, v1⟩ := kv
      rw [lookupJ] at h
      split at h
      · exact absurd h (by simp)
      · next hne => rw [objInsert, if_neg hne, List.cons_append, ih h]

theorem lookupJ_filter (p : String → Bool) {k : String} (hp : p k = true) :
    ∀ l : List (String × Json),
      lookupJ (l.filter (fun kv => p kv.1)) k = lookupJ l k := by
  intro l
  induction l with
  | nil => rfl
  | cons kv rest ih =>
      obtain ⟨k1, v1⟩ := kv
      by_cases he : k1 = k
      · subst he
        rw [List.filter_cons, if_pos (by simpa using hp), lookupJ, lookupJ,
          if_pos rfl, if_pos rfl]
      · rw [List.filter_cons]
        split
        · rw [lookupJ, lookupJ, if_neg he, if_neg he]; exact ih
        · rw [lookupJ, if_neg he]; exact ih

theorem any_key_filter_false {f : String → Bool} {l : List (String × Json)}
    (h : l.any (fun kv => f kv.1) = false) (q : String × Json → Bool) :
    (l.filter q).any (fun kv => f kv.1) = false := by
  induction l with
  | nil => rfl
  | cons kv rest ih =>
      rw [List.any_cons, Bool.or_eq_false_iff] at h
      rw [List.filter_cons]
      split
      · rw [List.any_cons, Bool.or_eq_false_iff]
        exact ⟨h.1, ih h.2⟩
      · exact ih h.2

theorem keysNodup_filter (q : String × Json → Bool) :
    ∀ {l : List (String × Json)}, keysNodup l = true →
      keysNodup (l.filter q) = true := by
  intro l
  induction l with
  | nil => intro _; rfl
  | cons kv rest ih =>
      intro h
      obtain ⟨k1, v1⟩ := kv
      rw [keysNodup, Bool.and_eq_true, Bool.not_eq_true'] at h
      rw [List.filter_cons]
      split
      · rw [keysNodup, Bool.and_eq_true, Bool.not_eq_true']
        exact ⟨@any_key_filter_false (fun x => decide (x = k1)) rest h.1 q, ih h.2⟩
      · exact ih h.2

/-!
## Success-shape inversion for the primitive and enum descriptors
-/

theorem transform_primString_ok {n : Nat} {v : Json} {dir : Dir} {k : String}
    {rv : Json} (h : transform (n + 1) v .primString dir k = .ok rv) :
    ∃ s, v = .str s ∧ rv = .str s := by
  cases v
  case str s => exact ⟨s, rfl, (Except.ok.inj h).symm⟩
  all_goals exact absurd h (by simp [transform])

theorem transform_primNumber_ok {n : Nat} {v : Json} {dir : Dir} {k : String}
    {rv : Json} (h : transform (n + 1) v .primNumber dir k = .ok rv) :
    ∃ q, v = .num q ∧ rv = .num q := by
  cases v
  case num q => exact ⟨q, rfl, (Except.ok.inj h).symm⟩
  all_goals exact absurd h (by simp [transform])

theorem transformEnum_ok {cs : List String} {v rv : Json}
    (h : transformEnum cs v = .ok rv) :
    ∃ s, v = .str s ∧ s ∈ cs ∧ rv = .str s := by
  cases v
  case str s =>
      rw [transformEnum] at h
      split at h
      · next hmem => exact ⟨s, rfl, hmem, (Except.ok.inj h).symm⟩
      · exact absurd h (by simp)
  all_goals exact absurd h (by simp [transformEnum])

/-- Encoding a `PriceStatus` back through the `PriceStatus` schema node
succeeds and returns the same string. -/
theorem transform_status_enc (n : Nat) (st : PriceStatus) (dir : Dir) (k : String) :
    transform (n + 2) (.str st.toStr) (.ref "PriceStatus") dir k =
      .ok (.str st.toStr) := by
  cases st <;> rfl

/-- A validated status string names a `PriceStatus` member. -/
theorem statusFromString_total {s : String}
    (h : s ∈ ["Auction", "Halted", "Trading", "Unknown"]) :
    ∃ st, statusFromString s = some st ∧ PriceStatus.toStr st = s := by
  rcases (by simpa using h : s = "Auction" ∨ s = "Halted" ∨ s = "Trading" ∨
      s = "Unknown") with rfl | rfl | rfl | rfl
  · exact ⟨.Auction, rfl, rfl⟩
  · exact ⟨.Halted, rfl, rfl⟩
  · exact ⟨.Trading, rfl, rfl⟩
  · exact ⟨.Unknown, rfl, rfl⟩

/-!
## The declared-property loop as an evaluation relation
-/

/-- The declared-property loop, related step by step to its per-property
results: `PropsEval rec fields dir ps outs` says that each property of
`ps` converts successfully and `outs` collects the (output key, result)
pairs in order. -/
def PropsEval (rec : Json → Typ → Dir → String → Except TErr Json)
    (fields : List (String × Json)) (dir : Dir) :
    List (String × String × Typ) → List (String × Json) → Prop
  | [], [] => True
  | p :: ps, (k, v) :: outs =>
      k = dir.outKey p ∧
      rec ((lookupJ fields (dir.inKey p)).getD .undef) p.2.2 dir (dir.outKey p) =
        .ok v ∧
      PropsEval rec fields dir ps outs
  | _, _ => False

/-- Assigning a list of results into an accumulated object, in order. -/
def insertAll (r : List (String × Json)) (outs : List (String × Json)) :
    List (String × Json) :=
  outs.foldl (fun acc kv => objInsert acc kv.1 kv.2) r

theorem foldl_propStep_error (rec : Json → Typ → Dir → String → Except TErr Json)
    (fields : List (String × Json)) (dir : Dir) (ps : List (String × String × Typ))
    (e : TErr) : ps.foldl (propStep rec fields dir) (.error e) = .error e := by
  induction ps with
  | nil => rfl
  | cons p ps ih => rw [List.foldl_cons, show propStep rec fields dir (.error e) p =
      .error e from rfl]; exact ih

/-- Forward evaluation of the declared-property loop from an evaluation
relation. -/
theorem props_eval_foldl (rec : Json → Typ → Dir → String → Except TErr Json)
    (fields : List (String × Json)) (dir : Dir) :
    ∀ (ps : List (String × String × Typ)) (outs r : List (String × Json)),
      PropsEval rec fields dir ps outs →
      ps.foldl (propStep rec fields dir) (.ok r) = .ok (insertAll r outs) := by
  intro ps
  induction ps with
  | nil =>
      intro outs r h
      cases outs with
      | nil => rfl
      | cons kv outs => exact h.elim
  | cons p ps ih =>
      intro outs r h
      cases outs with
      | nil => exact h.elim
      | cons kv outs =>
          obtain ⟨k, v⟩ := kv
          obtain ⟨hk, hrec, hrest⟩ := h
          subst hk
          rw [List.foldl_cons,
            show propStep rec fields dir (.ok r) p =
              .ok (objInsert r (dir.outKey p) v) by simp [propStep, hrec]]
          exact ih outs _ hrest

/-- Inversion of a successful declared-property loop into an evaluation
relation. -/
theorem props_foldl_eval (rec : Json → Typ → Dir → String → Except TErr Json)
    (fields : List (String × Json)) (dir : Dir) :
    ∀ (ps : List (String × String × Typ)) (r out : List (String × Json)),
      ps.foldl (propStep rec fields dir) (.ok r) = .ok out →
      ∃ outs, PropsEval rec fields dir ps outs ∧ out = insertAll r outs := by
  intro ps
  induction ps with
  | nil =>
      intro r out h
      exact ⟨[], trivial, (Except.ok.inj h).symm⟩
  | cons p ps ih =>
      intro r out h
      rw [List.foldl_cons] at h
      cases hrec : rec ((lookupJ fields (dir.inKey p)).getD .undef) p.2.2 dir
          (dir.outKey p) with
      | error e =>
          rw [show propStep rec fields dir (.ok r) p = .error e by
              simp [propStep, hrec],
            foldl_propStep_error] at h
          exact absurd h (by simp)
      | ok rv =>
          rw [show propStep rec fields dir (.ok r) p =
              .ok (objInsert r (dir.outKey p) rv) by simp [propStep, hrec]] at h
          obtain ⟨outs, he, hout⟩ := ih _ _ h
          exact ⟨(dir.outKey p, rv) :: outs, ⟨rfl, hrec, he⟩, hout⟩

/-!
## The additional-property loop under the `"any"` descriptor
-/

/-- Boolean string comparison is propositional-equality decision. -/
theorem beq_decide (a b : String) : (a == b) = decide (a = b) := by
  by_cases h : a = b
  · subst h; simp
  · simp [h, beq_eq_false_iff_ne.mpr h]

/-- Whether a key is a declared `PriceFeed` key. -/
def isPfKey (k : String) : Bool :=
  k == "conf" || k == "ema_conf" || k == "ema_price" || k == "expo" ||
  k == "id" || k == "max_num_publishers" || k == "metadata" ||
  k == "num_publishers" || k == "prev_conf" || k == "prev_price" ||
  k == "prev_publish_time" || k == "price" || k == "product_id" ||
  k == "publish_time" || k == "status"

/-- Whether a key is a declared `PriceFeedMetadata` key. -/
def isMetaKey (k : String) : Bool :=
  k == "attestation_time" || k == "emitter_chain" || k == "sequence_number"

/-- The declared-key test of the additional loop, on the `PriceFeed`
node, is `isPfKey` in both directions. -/
theorem any_pfProps_eq (dir : Dir) (k : String) :
    (pfProps.any fun p => dir.inKey p = k) = isPfKey k := by
  cases dir <;>
    simp [pfProps, Dir.inKey, isPfKey, List.any_cons, eq_comm,
      Bool.or_assoc, beq_decide]

/-- The declared-key test of the additional loop, on the
`PriceFeedMetadata` node, is `isMetaKey` in both directions. -/
theorem any_metaProps_eq (dir : Dir) (k : String) :
    (metaProps.any fun p => dir.inKey p = k) = isMetaKey k := by
  cases dir <;>
    simp [metaProps, Dir.inKey, isMetaKey, List.any_cons, eq_comm,
      Bool.or_assoc, beq_decide]

/-- Running the additional loop with the `"any"` descriptor appends the
non-declared input entries unchanged, in input order, provided the input
has no duplicate keys and its non-declared keys are absent from the
accumulated object. -/
theorem extra_any_eq_filter (n : Nat) (props : List (String × String × Typ))
    (dir : Dir) :
    ∀ (fs init : List (String × Json)),
      (∀ kv ∈ fs, (props.any fun p => dir.inKey p = kv.1) = false →
        lookupJ init kv.1 = none) →
      keysNodup fs = true →
      fs.foldl (extraStep (fun v t d k => transform (n + 1) v t d k) .any props dir)
          (.ok init) =
        .ok (init ++ fs.filter (fun kv => !(props.any fun p => dir.inKey p = kv.1))) := by
  intro fs
  induction fs with
  | nil => intro init _ _; simp
  | cons kv rest ih =>
      intro init hfresh hnd
      obtain ⟨k, v⟩ := kv
      rw [keysNodup, Bool.and_eq_true, Bool.not_eq_true'] at hnd
      rw [List.foldl_cons]
      by_cases hk : (props.any fun p => dir.inKey p = k) = true
      · rw [show extraStep (fun v t d k => transform (n + 1) v t d k) .any props dir
            (.ok init) (k, v) = .ok init by simp [extraStep, hk]]
        rw [ih init (fun kv hm hf => hfresh kv (List.mem_cons_of_mem _ hm) hf) hnd.2]
        simp [List.filter_cons, hk]
      · have hk' : (props.any fun p => dir.inKey p = k) = false :=
          Bool.eq_false_iff.mpr hk
        have hfk : lookupJ init k = none := hfresh (k, v) (List.mem_cons_self _ _) hk'
        rw [show extraStep (fun v t d k => transform (n + 1) v t d k) .any props dir
            (.ok init) (k, v) = .ok (init ++ [(k, v)]) by
          simp [extraStep, hk', transform, objInsert_fresh hfk]]
        rw [ih (init ++ [(k, v)]) ?_ hnd.2]
        · rw [List.filter_cons, if_pos (by simp [hk']), List.append_assoc,
            List.singleton_append]
        · intro kv2 hm hf
          have hne : kv2.1 ≠ k := by
            have := List.any_eq_false.mp hnd.1 kv2 hm
            simpa using this
          rw [lookupJ_append_none (hfresh kv2 (List.mem_cons_of_mem _ hm) hf),
            lookupJ, if_neg (Ne.symm hne)]
          rfl

/-!
## The metadata sub-object through the converter
-/

/-- Both directions read a self-keyed property at its single name. -/
theorem inKey_same {j : String} {t : Typ} (dir : Dir) : dir.inKey (j, j, t) = j := by
  cases dir <;> rfl

/-- Both directions write a self-keyed property at its single name. -/
theorem outKey_same {j : String} {t : Typ} (dir : Dir) : dir.outKey (j, j, t) = j := by
  cases dir <;> rfl

theorem getD_undef_num {o : Option Json} {q : Rat}
    (h : o.getD .undef = .num q) : o = some (.num q) := by
  cases o with
  | none => exact absurd h (by simp)
  | some v => simpa using h

theorem getD_undef_str {o : Option Json} {s : String}
    (h : o.getD .undef = .str s) : o = some (.str s) := by
  cases o with
  | none => exact absurd h (by simp)
  | some v => simpa using h

theorem lookup_meta3_none {k : String} (hk : isMetaKey k = false)
    (a e s : Json) :
    lookupJ [("attestation_time", a), ("emitter_chain", e),
      ("sequence_number", s)] k = none := by
  have h3 : ¬(k = "attestation_time") ∧ ¬(k = "emitter_chain") ∧
      ¬(k = "sequence_number") := by
    simpa [isMetaKey, beq_decide, and_assoc] using hk
  rw [lookupJ, if_neg (fun he => h3.1 he.symm), lookupJ,
    if_neg (fun he => h3.2.1 he.symm), lookupJ,
    if_neg (fun he => h3.2.2 he.symm), lookupJ]

/-- Inversion of a successful cast of a value against the
`PriceFeedMetadata` schema node: the value is an object carrying the
three numeric declared fields, and the result is those three fields in
declaration order followed by the non-declared entries unchanged. -/
theorem castMeta_ok {mf : List (String × Json)} {mv : Json} {dir : Dir}
    {k : String} (hnd : keysNodup mf = true)
    (h : transform 7 (.obj mf) (.ref "PriceFeedMetadata") dir k = .ok mv) :
    ∃ a e s, lookupJ mf "attestation_time" = some (.num a) ∧
      lookupJ mf "emitter_chain" = some (.num e) ∧
      lookupJ mf "sequence_number" = some (.num s) ∧
      mv = .obj (("attestation_time", Json.num a) :: ("emitter_chain", Json.num e) ::
        ("sequence_number", Json.num s) ::
        mf.filter (fun kv => !(isMetaKey kv.1))) := by
  have h' : (match transformObjectProps (fun v t d k => transform 5 v t d k)
        metaProps mf dir with
    | Except.error e => (Except.error e : Except TErr Json)
    | Except.ok acc =>
        match transformObjectExtra (fun v t d k => transform 5 v t d k) .any
            metaProps mf dir acc with
        | Except.error e => Except.error e
        | Except.ok acc2 => Except.ok (Json.obj acc2)) = .ok mv := h
  clear h
  split at h'
  · exact absurd h' (by simp)
  · next acc hp =>
      split at h'
      · exact absurd h' (by simp)
      · next acc2 hex =>
          obtain ⟨outs, hev, hout⟩ :=
            props_foldl_eval (fun v t d k => transform 5 v t d k) mf dir
              metaProps [] acc hp
          rw [show metaProps = ("attestation_time", "attestation_time", Typ.primNumber) ::
            ("emitter_chain", "emitter_chain", Typ.primNumber) ::
            ("sequence_number", "sequence_number", Typ.primNumber) :: [] from rfl] at hev
          cases outs with
          | nil => exact hev.elim
          | cons o1 outs =>
          obtain ⟨k1, v1⟩ := o1
          obtain ⟨hk1, hr1, hev⟩ := hev
          cases outs with
          | nil => exact hev.elim
          | cons o2 outs =>
          obtain ⟨k2, v2⟩ := o2
          obtain ⟨hk2, hr2, hev⟩ := hev
          cases outs with
          | nil => exact hev.elim
          | cons o3 outs =>
          obtain ⟨k3, v3⟩ := o3
          obtain ⟨hk3, hr3, hev⟩ := hev
          cases outs with
          | cons o4 outs => exact hev.elim
          | nil =>
          rw [inKey_same, outKey_same] at hr1 hr2 hr3
          rw [outKey_same] at hk1 hk2 hk3
          subst hk1; subst hk2; subst hk3
          obtain ⟨a, hva, hrva⟩ := transform_primNumber_ok hr1
          obtain ⟨e, hve, hrve⟩ := transform_primNumber_ok hr2
          obtain ⟨s, hvs, hrvs⟩ := transform_primNumber_ok hr3
          subst hrva; subst hrve; subst hrvs
          have ha := getD_undef_num hva
          have he := getD_undef_num hve
          have hs := getD_undef_num hvs
          subst hout
          have hfilter :=
            extra_any_eq_filter 4 metaProps dir mf
              [("attestation_time", Json.num a), ("emitter_chain", Json.num e),
               ("sequence_number", Json.num s)]
              (fun kv _ hf => lookup_meta3_none
                (by rw [← any_metaProps_eq dir]; exact hf) _ _ _) hnd
          rw [show transformObjectExtra (fun v t d k => transform 5 v t d k) .any
              metaProps mf dir (insertAll []
                [("attestation_time", Json.num a), ("emitter_chain", Json.num e),
                 ("sequence_number", Json.num s)]) =
            mf.foldl (extraStep (fun v t d k => transform (4 + 1) v t d k) .any
              metaProps dir)
              (.ok [("attestation_time", Json.num a), ("emitter_chain", Json.num e),
                ("sequence_number", Json.num s)]) from rfl, hfilter] at hex
          refine ⟨a, e, s, ha, he, hs, ?_⟩
          have hacc2 : acc2 = [("attestation_time", Json.num a),
              ("emitter_chain", Json.num e), ("sequence_number", Json.num s)] ++
              mf.filter (fun kv => !(metaProps.any fun p => dir.inKey p = kv.1)) :=
            (Except.ok.inj hex).symm
          rw [← Except.ok.inj h', hacc2]
          simp only [any_metaProps_eq, List.cons_append, List.nil_append]

/-- A list of entries none of which uses a declared metadata key never
`any`-matches a declared metadata key. -/
theorem mex_any_false {mex : List (String × Json)}
    (hmex : ∀ kv ∈ mex, isMetaKey kv.1 = false) {c : String}
    (hc : isMetaKey c = true) : (mex.any fun kv => kv.1 = c) = false := by
  refine List.any_eq_false.mpr fun kv hm => ?_
  have h := hmex kv hm
  simp only [decide_eq_true_eq]
  intro he
  rw [he, hc] at h
  exact Bool.noConfusion h

/-- Re-serialising a converter-produced metadata object (the three
declared numeric fields in declaration order followed by non-declared
entries) through the optional-metadata union is the identity: the
`undefined` member fails, the `PriceFeedMetadata` member reproduces the
object. -/
theorem uncastMeta_id (a e s : Rat) (mex : List (String × Json)) (dir : Dir)
    (hmex : ∀ kv ∈ mex, isMetaKey kv.1 = false)
    (hnd : keysNodup mex = true) :
    transformUnion (fun v t d k => transform 7 v t d k)
        [.primUndefined, .ref "PriceFeedMetadata"]
        (.obj (("attestation_time", Json.num a) :: ("emitter_chain", Json.num e) ::
          ("sequence_number", Json.num s) :: mex)) dir =
      .ok (.obj (("attestation_time", Json.num a) :: ("emitter_chain", Json.num e) ::
        ("sequence_number", Json.num s) :: mex)) := by
  have hprops : transformObjectProps (fun v t d k => transform 5 v t d k) metaProps
      (("attestation_time", Json.num a) :: ("emitter_chain", Json.num e) ::
        ("sequence_number", Json.num s) :: mex) dir =
      .ok [("attestation_time", Json.num a), ("emitter_chain", Json.num e),
        ("sequence_number", Json.num s)] := by
    have hev : PropsEval (fun v t d k => transform 5 v t d k)
        (("attestation_time", Json.num a) :: ("emitter_chain", Json.num e) ::
          ("sequence_number", Json.num s) :: mex) dir metaProps
        [("attestation_time", Json.num a), ("emitter_chain", Json.num e),
         ("sequence_number", Json.num s)] := by
      refine ⟨(outKey_same dir).symm, ?_, (outKey_same dir).symm, ?_,
        (outKey_same dir).symm, ?_, trivial⟩ <;> rw [inKey_same, outKey_same] <;> rfl
    exact props_eval_foldl _ _ dir metaProps _ [] hev
  have hnd3 : keysNodup (("attestation_time", Json.num a) ::
      ("emitter_chain", Json.num e) :: ("sequence_number", Json.num s) :: mex) = true := by
    have m1 := mex_any_false hmex (show isMetaKey "attestation_time" = true by decide)
    have m2 := mex_any_false hmex (show isMetaKey "emitter_chain" = true by decide)
    have m3 := mex_any_false hmex (show isMetaKey "sequence_number" = true by decide)
    simp [keysNodup, List.any_cons, hnd, m1, m2, m3]
  have hextra := extra_any_eq_filter 4 metaProps dir
    (("attestation_time", Json.num a) :: ("emitter_chain", Json.num e) ::
      ("sequence_number", Json.num s) :: mex)
    [("attestation_time", Json.num a), ("emitter_chain", Json.num e),
     ("sequence_number", Json.num s)]
    (fun kv _ hf => lookup_meta3_none
      (by rw [← any_metaProps_eq dir]; exact hf) _ _ _) hnd3
  have hfilter : (("attestation_time", Json.num a) :: ("emitter_chain", Json.num e) ::
      ("sequence_number", Json.num s) :: mex).filter
        (fun kv => !(metaProps.any fun p => dir.inKey p = kv.1)) = mex := by
    simp only [any_metaProps_eq]
    rw [List.filter_cons, if_neg (by simp [isMetaKey]), List.filter_cons,
      if_neg (by simp [isMetaKey]), List.filter_cons, if_neg (by simp [isMetaKey])]
    exact List.filter_eq_self.mpr fun kv hm => by
      simp [Bool.not_eq_true', hmex kv hm]
  rw [hfilter] at hextra
  have hmeta : transform 7
      (.obj (("attestation_time", Json.num a) :: ("emitter_chain", Json.num e) ::
        ("sequence_number", Json.num s) :: mex)) (.ref "PriceFeedMetadata") dir "" =
      .ok (.obj (("attestation_time", Json.num a) :: ("emitter_chain", Json.num e) ::
        ("sequence_number", Json.num s) :: mex)) := by
    have h1 : transform 7
        (.obj (("attestation_time", Json.num a) :: ("emitter_chain", Json.num e) ::
          ("sequence_number", Json.num s) :: mex)) (.ref "PriceFeedMetadata") dir "" =
        (match transformObjectExtra (fun v t d k => transform 5 v t d k) .any
            metaProps
            (("attestation_time", Json.num a) :: ("emitter_chain", Json.num e) ::
              ("sequence_number", Json.num s) :: mex) dir
            [("attestation_time", Json.num a), ("emitter_chain", Json.num e),
             ("sequence_number", Json.num s)] with
         | Except.error e => (Except.error e : Except TErr Json)
         | Except.ok acc2 => Except.ok (Json.obj acc2)) := by
      rw [show transform 7
          (.obj (("attestation_time", Json.num a) :: ("emitter_chain", Json.num e) ::
            ("sequence_number", Json.num s) :: mex)) (.ref "PriceFeedMetadata") dir "" =
        (match transformObjectProps (fun v t d k => transform 5 v t d k) metaProps
            (("attestation_time", Json.num a) :: ("emitter_chain", Json.num e) ::
              ("sequence_number", Json.num s) :: mex) dir with
         | Except.error e => (Except.error e : Except TErr Json)
         | Except.ok acc =>
             match transformObjectExtra (fun v t d k => transform 5 v t d k) .any
                 metaProps
                 (("attestation_time", Json.num a) :: ("emitter_chain", Json.num e) ::
                   ("sequence_number", Json.num s) :: mex) dir acc with
             | Except.error e => Except.error e
             | Except.ok acc2 => Except.ok (Json.obj acc2)) from rfl, hprops]
    rw [h1, show transformObjectExtra (fun v t d k => transform 5 v t d k) .any
        metaProps
        (("attestation_time", Json.num a) :: ("emitter_chain", Json.num e) ::
          ("sequence_number", Json.num s) :: mex) dir
        [("attestation_time", Json.num a), ("emitter_chain", Json.num e),
         ("sequence_number", Json.num s)] =
      (("attestation_time", Json.num a) :: ("emitter_chain", Json.num e) ::
        ("sequence_number", Json.num s) :: mex).foldl
        (extraStep (fun v t d k => transform (4 + 1) v t d k) .any metaProps dir)
        (.ok [("attestation_time", Json.num a), ("emitter_chain", Json.num e),
          ("sequence_number", Json.num s)]) from rfl, hextra]
    rfl
  rw [show transformUnion (fun v t d k => transform 7 v t d k)
      [.primUndefined, .ref "PriceFeedMetadata"]
      (.obj (("attestation_time", Json.num a) :: ("emitter_chain", Json.num e) ::
        ("sequence_number", Json.num s) :: mex)) dir =
    (match transform 7
        (.obj (("attestation_time", Json.num a) :: ("emitter_chain", Json.num e) ::
          ("sequence_number", Json.num s) :: mex)) (.ref "PriceFeedMetadata") dir "" with
     | Except.ok r => (Except.ok r : Except TErr Json)
     | Except.error _ =>
         Except.error ⟨"", .unionOf [.primUndefined, .ref "PriceFeedMetadata"],
           .obj (("attestation_time", Json.num a) :: ("emitter_chain", Json.num e) ::
             ("sequence_number", Json.num s) :: mex)⟩) from rfl, hmeta]

/-- A non-declared key is absent from the fifteen declared output pairs. -/
theorem lookup_pf15_none {k : String} (hk : isPfKey k = false)
    (v1 v2 v3 v4 v5 v6 v7 v8 v9 v10 v11 v12 v13 v14 v15 : Json) :
    lookupJ [("conf", v1), ("ema_conf", v2), ("ema_price", v3), ("expo", v4), ("id", v5), ("max_num_publishers", v6), ("metadata", v7), ("num_publishers", v8), ("prev_conf", v9), ("prev_price", v10), ("prev_publish_time", v11), ("price", v12), ("product_id", v13), ("publish_time", v14), ("status", v15)] k = none := by
  have hks : ¬(k = "conf") ∧
      ¬(k = "ema_conf") ∧
      ¬(k = "ema_price") ∧
      ¬(k = "expo") ∧
      ¬(k = "id") ∧
      ¬(k = "max_num_publishers") ∧
      ¬(k = "metadata") ∧
      ¬(k = "num_publishers") ∧
      ¬(k = "prev_conf") ∧
      ¬(k = "prev_price") ∧
      ¬(k = "prev_publish_time") ∧
      ¬(k = "price") ∧
      ¬(k = "product_id") ∧
      ¬(k = "publish_time") ∧
      ¬(k = "status") := by
    simpa [isPfKey, beq_decide, and_assoc] using hk
  rw [lookupJ, if_neg (fun he => hks.1 he.symm)]
  rw [lookupJ, if_neg (fun he => hks.2.1 he.symm)]
  rw [lookupJ, if_neg (fun he => hks.2.2.1 he.symm)]
  rw [lookupJ, if_neg (fun he => hks.2.2.2.1 he.symm)]
  rw [lookupJ, if_neg (fun he => hks.2.2.2.2.1 he.symm)]
  rw [lookupJ, if_neg (fun he => hks.2.2.2.2.2.1 he.symm)]
  rw [lookupJ, if_neg (fun he => hks.2.2.2.2.2.2.1 he.symm)]
  rw [lookupJ, if_neg (fun he => hks.2.2.2.2.2.2.2.1 he.symm)]
  rw [lookupJ, if_neg (fun he => hks.2.2.2.2.2.2.2.2.1 he.symm)]
  rw [lookupJ, if_neg (fun he => hks.2.2.2.2.2.2.2.2.2.1 he.symm)]
  rw [lookupJ, if_neg (fun he => hks.2.2.2.2.2.2.2.2.2.2.1 he.symm)]
  rw [lookupJ, if_neg (fun he => hks.2.2.2.2.2.2.2.2.2.2.2.1 he.symm)]
  rw [lookupJ, if_neg (fun he => hks.2.2.2.2.2.2.2.2.2.2.2.2.1 he.symm)]
  rw [lookupJ, if_neg (fun he => hks.2.2.2.2.2.2.2.2.2.2.2.2.2.1 he.symm)]
  rw [lookupJ, if_neg (fun he => hks.2.2.2.2.2.2.2.2.2.2.2.2.2.2 he.symm)]
  rfl

/-- Inversion of a successful `Convert.toPriceFeed`: the input object
carries each declared field with the declared runtime type, the status
string belongs to the enumeration, the metadata union converts, and the
result object is the fifteen declared output pairs in declaration order
followed by the non-declared input entries unchanged. -/
theorem castPF_ok {fields : List (String × Json)} {R : Json}
    (hnd : keysNodup fields = true)
    (h : Convert.toPriceFeed (.obj fields) = .ok R) :
    ∃ (c ec ep : String) (e : Rat) (i : String) (mnp : Rat) (mv : Json)
      (np : Rat) (pc pp : String) (ppt : Rat) (pr pid : String) (pt : Rat)
      (st : String),
      lookupJ fields "conf" = some (.str c) ∧
      lookupJ fields "ema_conf" = some (.str ec) ∧
      lookupJ fields "ema_price" = some (.str ep) ∧
      lookupJ fields "expo" = some (.num e) ∧
      lookupJ fields "id" = some (.str i) ∧
      lookupJ fields "max_num_publishers" = some (.num mnp) ∧
      transformUnion (fun v t d k => transform 7 v t d k)
        [.primUndefined, .ref "PriceFeedMetadata"]
        ((lookupJ fields "metadata").getD .undef) .jsonToJS = .ok mv ∧
      lookupJ fields "num_publishers" = some (.num np) ∧
      lookupJ fields "prev_conf" = some (.str pc) ∧
      lookupJ fields "prev_price" = some (.str pp) ∧
      lookupJ fields "prev_publish_time" = some (.num ppt) ∧
      lookupJ fields "price" = some (.str pr) ∧
      lookupJ fields "product_id" = some (.str pid) ∧
      lookupJ fields "publish_time" = some (.num pt) ∧
      lookupJ fields "status" = some (.str st) ∧
      st ∈ ["Auction", "Halted", "Trading", "Unknown"] ∧
      R = .obj (("conf", Json.str c) ::
        ("ema_conf", Json.str ec) ::
        ("ema_price", Json.str ep) ::
        ("expo", Json.num e) ::
        ("id", Json.str i) ::
        ("max_num_publishers", Json.num mnp) ::
        ("metadata", mv) ::
        ("num_publishers", Json.num np) ::
        ("prev_conf", Json.str pc) ::
        ("prev_price", Json.str pp) ::
        ("prev_publish_time", Json.num ppt) ::
        ("price", Json.str pr) ::
        ("product_id", Json.str pid) ::
        ("publish_time", Json.num pt) ::
        ("status", Json.str st) ::
        fields.filter (fun kv => !(isPfKey kv.1))) := by
  have h' : (match transformObjectProps (fun v t d k => transform 8 v t d k)
        pfProps fields .jsonToJS with
    | Except.error e => (Except.error e : Except TErr Json)
    | Except.ok acc =>
        match transformObjectExtra (fun v t d k => transform 8 v t d k) .any
            pfProps fields .jsonToJS acc with
        | Except.error e => Except.error e
        | Except.ok acc2 => Except.ok (Json.obj acc2)) = .ok R := h
  clear h
  split at h'
  · exact absurd h' (by simp)
  · next acc hp =>
      split at h'
      · exact absurd h' (by simp)
      · next acc2 hex =>
          obtain ⟨outs, hev, hout⟩ :=
            props_foldl_eval (fun v t d k => transform 8 v t d k) fields .jsonToJS
              pfProps [] acc hp
          rw [show pfProps = ("conf", "conf", Typ.primString) ::
            ("ema_conf", "ema_conf", Typ.primString) ::
            ("ema_price", "ema_price", Typ.primString) ::
            ("expo", "expo", Typ.primNumber) ::
            ("id", "id", Typ.primString) ::
            ("max_num_publishers", "max_num_publishers", Typ.primNumber) ::
            ("metadata", "metadata", Typ.union [.primUndefined, .ref "PriceFeedMetadata"]) ::
            ("num_publishers", "num_publishers", Typ.primNumber) ::
            ("prev_conf", "prev_conf", Typ.primString) ::
            ("prev_price", "prev_price", Typ.primString) ::
            ("prev_publish_time", "prev_publish_time", Typ.primNumber) ::
            ("price", "price", Typ.primString) ::
            ("product_id", "product_id", Typ.primString) ::
            ("publish_time", "publish_time", Typ.primNumber) ::
            ("status", "status", Typ.ref "PriceStatus") :: [] from rfl] at hev
          cases outs with
          | nil => exact hev.elim
          | cons o1 outs =>
          obtain ⟨k1, v1⟩ := o1
          obtain ⟨hk1, hr1, hev⟩ := hev
          cases outs with
          | nil => exact hev.elim
          | cons o2 outs =>
          obtain ⟨k2, v2⟩ := o2
          obtain ⟨hk2, hr2, hev⟩ := hev
          cases outs with
          | nil => exact hev.elim
          | cons o3 outs =>
          obtain ⟨k3, v3⟩ := o3
          obtain ⟨hk3, hr3, hev⟩ := hev
          cases outs with
          | nil => exact hev.elim
          | cons o4 outs =>
          obtain ⟨k4, v4⟩ := o4
          obtain ⟨hk4, hr4, hev⟩ := hev
          cases outs with
          | nil => exact hev.elim
          | cons o5 outs =>
          obtain ⟨k5, v5⟩ := o5
          obtain ⟨hk5, hr5, hev⟩ := hev
          cases outs with
          | nil => exact hev.elim
          | cons o6 outs =>
          obtain ⟨k6, v6⟩ := o6
          obtain ⟨hk6, hr6, hev⟩ := hev
          cases outs with
          | nil => exact hev.elim
          | cons o7 outs =>
          obtain ⟨k7, v7⟩ := o7
          obtain ⟨hk7, hr7, hev⟩ := hev
          cases outs with
          | nil => exact hev.elim
          | cons o8 outs =>
          obtain ⟨k8, v8⟩ := o8
          obtain ⟨hk8, hr8, hev⟩ := hev
          cases outs with
          | nil => exact hev.elim
          | cons o9 outs =>
          obtain ⟨k9, v9⟩ := o9
          obtain ⟨hk9, hr9, hev⟩ := hev
          cases outs with
          | nil => exact hev.elim
          | cons o10 outs =>
          obtain ⟨k10, v10⟩ := o10
          obtain ⟨hk10, hr10, hev⟩ := hev
          cases outs with
          | nil => exact hev.elim
          | cons o11 outs =>
          obtain ⟨k11, v11⟩ := o11
          obtain ⟨hk11, hr11, hev⟩ := hev
          cases outs with
          | nil => exact hev.elim
          | cons o12 outs =>
          obtain ⟨k12, v12⟩ := o12
          obtain ⟨hk12, hr12, hev⟩ := hev
          cases outs with
          | nil => exact hev.elim
          | cons o13 outs =>
          obtain ⟨k13, v13⟩ := o13
          obtain ⟨hk13, hr13, hev⟩ := hev
          cases outs with
          | nil => exact hev.elim
          | cons o14 outs =>
          obtain ⟨k14, v14⟩ := o14
          obtain ⟨hk14, hr14, hev⟩ := hev
          cases outs with
          | nil => exact hev.elim
          | cons o15 outs =>
          obtain ⟨k15, v15⟩ := o15
          obtain ⟨hk15, hr15, hev⟩ := hev
          cases outs with
          | cons o16 outs => exact hev.elim
          | nil =>
          simp only [Dir.inKey, Dir.outKey] at hk1 hk2 hk3 hk4 hk5 hk6 hk7 hk8 hk9 hk10 hk11 hk12 hk13 hk14 hk15 hr1 hr2 hr3 hr4 hr5 hr6 hr7 hr8 hr9 hr10 hr11 hr12 hr13 hr14 hr15
          subst hk1
          subst hk2
          subst hk3
          subst hk4
          subst hk5
          subst hk6
          subst hk7
          subst hk8
          subst hk9
          subst hk10
          subst hk11
          subst hk12
          subst hk13
          subst hk14
          subst hk15
          obtain ⟨c, hv1, hrv1⟩ := transform_primString_ok hr1
          subst hrv1
          have hl1 := getD_undef_str hv1
          obtain ⟨ec, hv2, hrv2⟩ := transform_primString_ok hr2
          subst hrv2
          have hl2 := getD_undef_str hv2
          obtain ⟨ep, hv3, hrv3⟩ := transform_primString_ok hr3
          subst hrv3
          have hl3 := getD_undef_str hv3
          obtain ⟨e, hv4, hrv4⟩ := transform_primNumber_ok hr4
          subst hrv4
          have hl4 := getD_undef_num hv4
          obtain ⟨i, hv5, hrv5⟩ := transform_primString_ok hr5
          subst hrv5
          have hl5 := getD_undef_str hv5
          obtain ⟨mnp, hv6, hrv6⟩ := transform_primNumber_ok hr6
          subst hrv6
          have hl6 := getD_undef_num hv6
          obtain ⟨np, hv8, hrv8⟩ := transform_primNumber_ok hr8
          subst hrv8
          have hl8 := getD_undef_num hv8
          obtain ⟨pc, hv9, hrv9⟩ := transform_primString_ok hr9
          subst hrv9
          have hl9 := getD_undef_str hv9
          obtain ⟨pp, hv10, hrv10⟩ := transform_primString_ok hr10
          subst hrv10
          have hl10 := getD_undef_str hv10
          obtain ⟨ppt, hv11, hrv11⟩ := transform_primNumber_ok hr11
          subst hrv11
          have hl11 := getD_undef_num hv11
          obtain ⟨pr, hv12, hrv12⟩ := transform_primString_ok hr12
          subst hrv12
          have hl12 := getD_undef_str hv12
          obtain ⟨pid, hv13, hrv13⟩ := transform_primString_ok hr13
          subst hrv13
          have hl13 := getD_undef_str hv13
          obtain ⟨pt, hv14, hrv14⟩ := transform_primNumber_ok hr14
          subst hrv14
          have hl14 := getD_undef_num hv14
          obtain ⟨st, hv15, hmem, hrv15⟩ := transformEnum_ok
            (show transformEnum ["Auction", "Halted", "Trading", "Unknown"]
              ((lookupJ fields "status").getD .undef) = .ok v15 from hr15)
          subst hrv15
          have hl15 := getD_undef_str hv15
          subst hout
          have hextra :=
            extra_any_eq_filter 7 pfProps .jsonToJS fields
              [("conf", Json.str c), ("ema_conf", Json.str ec), ("ema_price", Json.str ep), ("expo", Json.num e), ("id", Json.str i), ("max_num_publishers", Json.num mnp), ("metadata", v7), ("num_publishers", Json.num np), ("prev_conf", Json.str pc), ("prev_price", Json.str pp), ("prev_publish_time", Json.num ppt), ("price", Json.str pr), ("product_id", Json.str pid), ("publish_time", Json.num pt), ("status", Json.str st)]
              (fun kv _ hf => lookup_pf15_none
                (by rw [← any_pfProps_eq .jsonToJS]; exact hf) (Json.str c) (Json.str ec) (Json.str ep) (Json.num e) (Json.str i) (Json.num mnp) v7 (Json.num np) (Json.str pc) (Json.str pp) (Json.num ppt) (Json.str pr) (Json.str pid) (Json.num pt) (Json.str st)) hnd
          simp only [any_pfProps_eq] at hextra
          have hex2 : transformObjectExtra (fun v t d k => transform 8 v t d k) .any
              pfProps fields .jsonToJS
              (insertAll [] [("conf", Json.str c), ("ema_conf", Json.str ec), ("ema_price", Json.str ep), ("expo", Json.num e), ("id", Json.str i), ("max_num_publishers", Json.num mnp), ("metadata", v7), ("num_publishers", Json.num np), ("prev_conf", Json.str pc), ("prev_price", Json.str pp), ("prev_publish_time", Json.num ppt), ("price", Json.str pr), ("product_id", Json.str pid), ("publish_time", Json.num pt), ("status", Json.str st)]) =
              .ok ([("conf", Json.str c), ("ema_conf", Json.str ec), ("ema_price", Json.str ep), ("expo", Json.num e), ("id", Json.str i), ("max_num_publishers", Json.num mnp), ("metadata", v7), ("num_publishers", Json.num np), ("prev_conf", Json.str pc), ("prev_price", Json.str pp), ("prev_publish_time", Json.num ppt), ("price", Json.str pr), ("product_id", Json.str pid), ("publish_time", Json.num pt), ("status", Json.str st)] ++
                fields.filter (fun kv => !(isPfKey kv.1))) := hextra
          have hacc2 : acc2 = [("conf", Json.str c), ("ema_conf", Json.str ec), ("ema_price", Json.str ep), ("expo", Json.num e), ("id", Json.str i), ("max_num_publishers", Json.num mnp), ("metadata", v7), ("num_publishers", Json.num np), ("prev_conf", Json.str pc), ("prev_price", Json.str pp), ("prev_publish_time", Json.num ppt), ("price", Json.str pr), ("product_id", Json.str pid), ("publish_time", Json.num pt), ("status", Json.str st)] ++
              fields.filter (fun kv => !(isPfKey kv.1)) :=
            (Except.ok.inj (hex2.symm.trans hex)).symm
          refine ⟨c, ec, ep, e, i, mnp, v7, np, pc, pp, ppt, pr, pid, pt, st,
            hl1, hl2, hl3, hl4, hl5, hl6, hr7, hl8, hl9, hl10, hl11, hl12, hl13,
            hl14, hl15, hmem, ?_⟩
          rw [← Except.ok.inj h', hacc2]
          rfl

/-!
## The output object of `toJson`
-/

/-- The object `toJson` returns: exactly the fifteen declared snake_case
keys, in schema order, with the metadata key bound to the stored
metadata object or to the JS value `undefined`. -/
def pfOutFields (f : PriceFeed) : List (String × Json) :=
  [("conf", .str f.conf), ("ema_conf", .str f.emaConf),
   ("ema_price", .str f.emaPrice), ("expo", .num f.expo), ("id", .str f.id),
   ("max_num_publishers", .num f.maxNumPublishers),
   ("metadata", f.metadata.getD .undef),
   ("num_publishers", .num f.numPublishers), ("prev_conf", .str f.prevConf),
   ("prev_price", .str f.prevPrice),
   ("prev_publish_time", .num f.prevPublishTime), ("price", .str f.price),
   ("product_id", .str f.productId), ("publish_time", .num f.publishTime),
   ("status", .str f.status.toStr)]

/-- Running `toJson` on a feed without metadata: the fifteen declared keys, the
metadata key bound to `undefined`. -/
theorem toJson_meta_none (f : PriceFeed) (hm : f.metadata = none) :
    f.toJson = .ok (.obj (pfOutFields f)) := by
  obtain ⟨c, ec, ep, e, i, mnp, md, np, pc, pp, ppt, pr, pid, pt, st⟩ := f
  simp only at hm
  subst hm
  cases st <;> rfl

/-- Running `toJson` on a feed whose metadata is a converter-produced object:
the fifteen declared keys, the metadata reproduced exactly. -/
theorem toJson_meta_some (f : PriceFeed) (a e2 s2 : Rat)
    (mex : List (String × Json))
    (hm : f.metadata = some (.obj (("attestation_time", Json.num a) ::
      ("emitter_chain", Json.num e2) :: ("sequence_number", Json.num s2) :: mex)))
    (hmex : ∀ kv ∈ mex, isMetaKey kv.1 = false)
    (hnd : keysNodup mex = true) :
    f.toJson = .ok (.obj (pfOutFields f)) := by
  obtain ⟨c, ec, ep, e, i, mnp, md, np, pc, pp, ppt, pr, pid, pt, st⟩ := f
  simp only at hm
  subst hm
  have hmeta : transform 8
      (.obj (("attestation_time", Json.num a) :: ("emitter_chain", Json.num e2) ::
        ("sequence_number", Json.num s2) :: mex))
      (.union [.primUndefined, .ref "PriceFeedMetadata"]) .jsToJSON "metadata" =
      .ok (.obj (("attestation_time", Json.num a) :: ("emitter_chain", Json.num e2) ::
        ("sequence_number", Json.num s2) :: mex)) :=
    uncastMeta_id a e2 s2 mex .jsToJSON hmex hnd
  have hev : PropsEval (fun v t d k => transform 8 v t d k)
      [("conf", .str c), ("ema_conf", .str ec), ("ema_price", .str ep),
       ("expo", .num e), ("id", .str i), ("max_num_publishers", .num mnp),
       ("metadata", .obj (("attestation_time", Json.num a) ::
         ("emitter_chain", Json.num e2) :: ("sequence_number", Json.num s2) :: mex)),
       ("num_publishers", .num np), ("prev_conf", .str pc),
       ("prev_price", .str pp), ("prev_publish_time", .num ppt),
       ("price", .str pr), ("product_id", .str pid), ("publish_time", .num pt),
       ("status", .str st.toStr)] .jsToJSON pfProps
      [("conf", .str c), ("ema_conf", .str ec), ("ema_price", .str ep),
       ("expo", .num e), ("id", .str i), ("max_num_publishers", .num mnp),
       ("metadata", .obj (("attestation_time", Json.num a) ::
         ("emitter_chain", Json.num e2) :: ("sequence_number", Json.num s2) :: mex)),
       ("num_publishers", .num np), ("prev_conf", .str pc),
       ("prev_price", .str pp), ("prev_publish_time", .num ppt),
       ("price", .str pr), ("product_id", .str pid), ("publish_time", .num pt),
       ("status", .str st.toStr)] := by
    refine ⟨rfl, rfl, rfl, rfl, rfl, rfl, rfl, rfl, rfl, rfl, rfl, rfl, rfl,
      hmeta, rfl, rfl, rfl, rfl, rfl, rfl, rfl, rfl, rfl, rfl, rfl, rfl, rfl,
      rfl, rfl, transform_status_enc 6 st .jsToJSON "status", trivial⟩
  have hprops0 := props_eval_foldl (fun v t d k => transform 8 v t d k) _ .jsToJSON
    pfProps _ [] hev
  have hprops : transformObjectProps (fun v t d k => transform 8 v t d k) pfProps _
      .jsToJSON = .ok _ := hprops0
  rw [show PriceFeed.toJson ⟨c, ec, ep, e, i, mnp,
      some (.obj (("attestation_time", Json.num a) :: ("emitter_chain", Json.num e2) ::
        ("sequence_number", Json.num s2) :: mex)),
      np, pc, pp, ppt, pr, pid, pt, st⟩ =
    (match transformObjectProps (fun v t d k => transform 8 v t d k) pfProps
        [("conf", .str c), ("ema_conf", .str ec), ("ema_price", .str ep),
         ("expo", .num e), ("id", .str i), ("max_num_publishers", .num mnp),
         ("metadata", .obj (("attestation_time", Json.num a) ::
           ("emitter_chain", Json.num e2) :: ("sequence_number", Json.num s2) :: mex)),
         ("num_publishers", .num np), ("prev_conf", .str pc),
         ("prev_price", .str pp), ("prev_publish_time", .num ppt),
         ("price", .str pr), ("product_id", .str pid), ("publish_time", .num pt),
         ("status", .str st.toStr)] .jsToJSON with
     | Except.error e => (Except.error e : Except TErr Json)
     | Except.ok acc =>
         match transformObjectExtra (fun v t d k => transform 8 v t d k) .any
             pfProps
             [("conf", .str c), ("ema_conf", .str ec), ("ema_price", .str ep),
              ("expo", .num e), ("id", .str i), ("max_num_publishers", .num mnp),
              ("metadata", .obj (("attestation_time", Json.num a) ::
                ("emitter_chain", Json.num e2) ::
                ("sequence_number", Json.num s2) :: mex)),
              ("num_publishers", .num np), ("prev_conf", .str pc),
              ("prev_price", .str pp), ("prev_publish_time", .num ppt),
              ("price", .str pr), ("product_id", .str pid),
              ("publish_time", .num pt), ("status", .str st.toStr)] .jsToJSON acc with
         | Except.error e => Except.error e
         | Except.ok acc2 => Except.ok (Json.obj acc2)) from rfl, hprops]
  rfl

/-- Inversion of a successful conversion against the optional-metadata
union: either the value is `undefined` (first member), or it is an
object accepted by the `PriceFeedMetadata` node (second member). -/
theorem metaUnion_inv {vm mv : Json} {dir : Dir}
    (h : transformUnion (fun v t d k => transform 7 v t d k)
      [.primUndefined, .ref "PriceFeedMetadata"] vm dir = .ok mv) :
    (vm = .undef ∧ mv = .undef) ∨
    (∃ mf, vm = .obj mf ∧
      transform 7 (.obj mf) (.ref "PriceFeedMetadata") dir "" = .ok mv) := by
  cases vm
  case undef => exact Or.inl ⟨rfl, (Except.ok.inj h).symm⟩
  case obj mf =>
      refine Or.inr ⟨mf, rfl, ?_⟩
      have h' : (match transform 7 (.obj mf) (.ref "PriceFeedMetadata") dir "" with
        | Except.ok r => (Except.ok r : Except TErr Json)
        | Except.error _ =>
            Except.error ⟨"", .unionOf [.primUndefined, .ref "PriceFeedMetadata"],
              .obj mf⟩) = .ok mv := h
      split at h'
      · next r hr => rw [hr]; exact h'
      · exact absurd h' (by simp)
  all_goals exact Except.noConfusion h

/-- Every key of the `toJson` output object is a declared key. -/
theorem pfOut_keys (f : PriceFeed) :
    ∀ k v, lookupJ (pfOutFields f) k = some v → isPfKey k = true := by
  intro k v hkv
  by_cases hk : isPfKey k = true
  · exact hk
  · have hnone : lookupJ (pfOutFields f) k = none :=
      lookup_pf15_none (Bool.eq_false_iff.mpr hk) _ _ _ _ _ _ _ _ _ _ _ _ _ _ _
    rw [hnone] at hkv
    exact Option.noConfusion hkv

/-- The converter's metadata output is lookup-equivalent to the raw
metadata object it was produced from. -/
theorem meta_out_equiv {mf : List (String × Json)} (a e2 s2 : Rat)
    (hma : lookupJ mf "attestation_time" = some (.num a))
    (hme : lookupJ mf "emitter_chain" = some (.num e2))
    (hms : lookupJ mf "sequence_number" = some (.num s2)) :
    ∀ k, lookupJ (("attestation_time", Json.num a) :: ("emitter_chain", Json.num e2) ::
      ("sequence_number", Json.num s2) ::
      mf.filter (fun kv => !(isMetaKey kv.1))) k = lookupJ mf k := by
  intro k
  by_cases h1 : k = "attestation_time"
  · subst h1; rw [hma]; rfl
  by_cases h2 : k = "emitter_chain"
  · subst h2; rw [hme]; rfl
  by_cases h3 : k = "sequence_number"
  · subst h3; rw [hms]; rfl
  rw [lookupJ, if_neg (fun he => h1 he.symm), lookupJ, if_neg (fun he => h2 he.symm),
    lookupJ, if_neg (fun he => h3 he.symm)]
  exact lookupJ_filter (fun x => !isMetaKey x)
    (by simp [isMetaKey, beq_decide, h1, h2, h3]) mf

/-!
## C5 — the metadata key in the output of `toJson`
-/

/-- Counterexample to C5: at the repository's own test feed (which has
no metadata), the object `toJson()` returns DOES contain a `metadata`
key — bound to the JS value `undefined` — because `transformObject`
assigns `result[prop.key]` unconditionally.  (The key disappears only
under `JSON.stringify`.) -/
theorem toJson_metadata_key_present :
    sampleTrading.metadata = none ∧
    sampleTrading.toJson = .ok (.obj (pfOutFields sampleTrading)) ∧
    lookupJ (pfOutFields sampleTrading) "metadata" = some .undef :=
  ⟨rfl, rfl, rfl⟩

/-- C5 as amended: for every `PriceFeed` without metadata, `toJson()`
returns the fifteen declared keys with the `metadata` key PRESENT and
bound to the JS value `undefined` (never `null`); the key is therefore
omitted from the serialised JSON text, but not from the object itself. -/
theorem toJson_metadata_undefined (f : PriceFeed) (h : f.metadata = none) :
    f.toJson = .ok (.obj (pfOutFields f)) ∧
    lookupJ (pfOutFields f) "metadata" = some .undef := by
  refine ⟨toJson_meta_none f h, ?_⟩
  simp [pfOutFields, lookupJ, h]

/-- Witness for the amended C5 at the test feed with `Unknown` status. -/
theorem toJson_metadata_undefined_witness :
    sampleUnknown.toJson = .ok (.obj (pfOutFields sampleUnknown)) ∧
    lookupJ (pfOutFields sampleUnknown) "metadata" = some .undef :=
  toJson_metadata_undefined sampleUnknown rfl

/-!
## C1 — the round trip
-/

/-- Lookup-extensional equality of JS objects: what JS deep equality on
(nodup-key) objects compares, one level at a time. -/
def objEquiv (a b : List (String × Json)) : Prop :=
  ∀ k, lookupJ a k = lookupJ b k

/-- The test input with an additional unknown top-level property. -/
def sampleJsonFieldsFoo : List (String × Json) :=
  sampleJsonFields ++ [("foo", .str "bar")]

/-- Counterexample to C1: a valid input carrying the unknown property
`foo` and no `metadata`.  The round trip `toJson(fromJson(J))` drops
`foo` (the `PriceFeed` constructor copies only the declared fields) and
introduces a `metadata` key bound to `undefined`, so the result does not
deep-equal `J`. -/
theorem roundtrip_not_identity :
    PriceFeed.fromJson (.obj sampleJsonFieldsFoo) = .ok sampleTrading ∧
    sampleTrading.toJson = .ok (.obj (pfOutFields sampleTrading)) ∧
    lookupJ sampleJsonFieldsFoo "foo" = some (.str "bar") ∧
    lookupJ (pfOutFields sampleTrading) "foo" = none ∧
    lookupJ sampleJsonFieldsFoo "metadata" = none ∧
    lookupJ (pfOutFields sampleTrading) "metadata" = some .undef ∧
    ¬ objEquiv (pfOutFields sampleTrading) sampleJsonFieldsFoo := by
  refine ⟨rfl, rfl, rfl, rfl, rfl, rfl, fun hq => ?_⟩
  have h := hq "foo"
  rw [show lookupJ (pfOutFields sampleTrading) "foo" = none from rfl,
    show lookupJ sampleJsonFieldsFoo "foo" = some (.str "bar") from rfl] at h
  exact Option.noConfusion h

/-- C1 as amended: for every well-formed JSON object `J` accepted by
`fromJson`, `toJson(fromJson(J))` succeeds and returns an object with
EXACTLY the fifteen declared snake_case keys: the thirteen scalar
declared fields and the status hold `J`'s values verbatim; the
`metadata` key holds an object lookup-equivalent to `J`'s metadata when
`J` has one, and the JS value `undefined` (dropped only by JSON
serialisation) when it does not; and `J`'s additional/unknown top-level
properties do NOT reappear — every key of the output is declared. -/
theorem roundtrip_amended (fields : List (String × Json)) (f : PriceFeed)
    (hnd : keysNodup fields = true)
    (hmnd : ∀ mf, lookupJ fields "metadata" = some (.obj mf) →
      keysNodup mf = true)
    (hok : PriceFeed.fromJson (.obj fields) = .ok f) :
    f.toJson = .ok (.obj (pfOutFields f)) ∧
    lookupJ fields "conf" = some (.str f.conf) ∧
    lookupJ fields "ema_conf" = some (.str f.emaConf) ∧
    lookupJ fields "ema_price" = some (.str f.emaPrice) ∧
    lookupJ fields "expo" = some (.num f.expo) ∧
    lookupJ fields "id" = some (.str f.id) ∧
    lookupJ fields "max_num_publishers" = some (.num f.maxNumPublishers) ∧
    lookupJ fields "num_publishers" = some (.num f.numPublishers) ∧
    lookupJ fields "prev_conf" = some (.str f.prevConf) ∧
    lookupJ fields "prev_price" = some (.str f.prevPrice) ∧
    lookupJ fields "prev_publish_time" = some (.num f.prevPublishTime) ∧
    lookupJ fields "price" = some (.str f.price) ∧
    lookupJ fields "product_id" = some (.str f.productId) ∧
    lookupJ fields "publish_time" = some (.num f.publishTime) ∧
    lookupJ fields "status" = some (.str f.status.toStr) ∧
    ((lookupJ fields "metadata" = none ∨ lookupJ fields "metadata" = some .undef) →
      f.metadata = none) ∧
    (∀ mf, lookupJ fields "metadata" = some (.obj mf) →
      ∃ mof, f.metadata = some (.obj mof) ∧ objEquiv mof mf) ∧
    (∀ k v, lookupJ (pfOutFields f) k = some v → isPfKey k = true) := by
  have hconv : ∃ R, Convert.toPriceFeed (.obj fields) = .ok R ∧
      extractFeed R = some f := by
    unfold PriceFeed.fromJson at hok
    split at hok
    · exact absurd hok (by simp)
    · next R hc =>
        split at hok
        · next f2 he => exact ⟨R, hc, by rw [he, Except.ok.inj hok]⟩
        · exact absurd hok (by simp)
  obtain ⟨R, hc, hef⟩ := hconv
  obtain ⟨c, ec, ep, e, i, mnp, mv, np, pc, pp, ppt, pr, pid, pt, st, hl1, hl2,
    hl3, hl4, hl5, hl6, hr7, hl8, hl9, hl10, hl11, hl12, hl13, hl14, hl15, hmem,
    hR⟩ := castPF_ok hnd hc
  subst hR
  obtain ⟨stv, hstv, hstv2⟩ := statusFromString_total hmem
  rcases metaUnion_inv hr7 with ⟨hvund, hmvund⟩ | ⟨mf, hmf, hmeta⟩
  · subst hmvund
    have hef2 : Option.bind (statusFromString st)
        (fun status => some (⟨c, ec, ep, e, i, mnp, none, np, pc, pp, ppt, pr,
          pid, pt, status⟩ : PriceFeed)) = some f := hef
    rw [hstv] at hef2
    have hf := Option.some.inj hef2
    subst hf
    refine ⟨toJson_meta_none _ rfl, hl1, hl2, hl3, hl4, hl5, hl6, hl8, hl9, hl10,
      hl11, hl12, hl13, hl14, ?_, fun _ => rfl, ?_, pfOut_keys _⟩
    · rw [show PriceStatus.toStr (PriceFeed.status ⟨c, ec, ep, e, i, mnp, none, np,
        pc, pp, ppt, pr, pid, pt, stv⟩) = PriceStatus.toStr stv from rfl, hstv2]
      exact hl15
    · intro mf0 hmf2
      rw [hmf2] at hvund
      exact absurd hvund (by simp)
  · have hlm : lookupJ fields "metadata" = some (.obj mf) := by
      cases hlk : lookupJ fields "metadata" with
      | none => rw [hlk] at hmf; exact absurd hmf (by simp)
      | some m =>
          rw [hlk] at hmf
          simp only [Option.getD_some] at hmf
          rw [hmf]
    have hmfnd := hmnd mf hlm
    obtain ⟨a, e2, s2, hma, hme, hms, hmv⟩ := castMeta_ok hmfnd hmeta
    subst hmv
    have hef2 : Option.bind (statusFromString st)
        (fun status => some (⟨c, ec, ep, e, i, mnp,
          some (.obj (("attestation_time", Json.num a) ::
            ("emitter_chain", Json.num e2) :: ("sequence_number", Json.num s2) ::
            mf.filter (fun kv => !(isMetaKey kv.1)))),
          np, pc, pp, ppt, pr, pid, pt, status⟩ : PriceFeed)) = some f := hef
    rw [hstv] at hef2
    have hf := Option.some.inj hef2
    subst hf
    have hmex : ∀ kv ∈ mf.filter (fun kv => !(isMetaKey kv.1)),
        isMetaKey kv.1 = false := by
      intro kv hm
      have := List.of_mem_filter hm
      simpa using this
    refine ⟨toJson_meta_some _ a e2 s2 _ rfl hmex (keysNodup_filter _ hmfnd),
      hl1, hl2, hl3, hl4, hl5, hl6, hl8, hl9, hl10, hl11, hl12, hl13, hl14, ?_,
      ?_, ?_, pfOut_keys _⟩
    · rw [show PriceStatus.toStr (PriceFeed.status ⟨c, ec, ep, e, i, mnp,
        some (.obj (("attestation_time", Json.num a) ::
          ("emitter_chain", Json.num e2) :: ("sequence_number", Json.num s2) ::
          mf.filter (fun kv => !(isMetaKey kv.1)))), np,
        pc, pp, ppt, pr, pid, pt, stv⟩) = PriceStatus.toStr stv from rfl, hstv2]
      exact hl15
    · intro hor
      rcases hor with hor | hor
      · rw [hor] at hlm; exact Option.noConfusion hlm
      · rw [hor] at hlm; exact Json.noConfusion (Option.some.inj hlm)
    · intro mf2 hmf2
      have hmm : mf2 = mf := by
        rw [hlm] at hmf2
        exact (Json.obj.inj (Option.some.inj hmf2)).symm
      subst hmm
      exact ⟨_, rfl, meta_out_equiv a e2 s2 hma hme hms⟩

/-- Witness for the amended C1 at the repository's test input. -/
theorem roundtrip_amended_witness :
    sampleTrading.toJson = .ok (.obj (pfOutFields sampleTrading)) :=
  (roundtrip_amended sampleJsonFields sampleTrading rfl
    (fun _ hmf => Option.noConfusion hmf) rfl).1

/-!
## C9 — a null metadata value is rejected, an absent one accepted
-/

/-- C9: for every well-formed input accepted by `fromJson` whose
`metadata` key is absent, the same input with `metadata` present and
bound to `null` is rejected: `null` matches neither the `undefined`
member nor the `PriceFeedMetadata` object member of the metadata union,
so `fromJson` throws the Malformed Input error listing the whole union
(with no key, matching `invalidValue(typs, val)`).  Absence and `null`
are not interchangeable at the public interface. -/
theorem metadata_null_rejected (fields : List (String × Json)) (f : PriceFeed)
    (hnd : keysNodup fields = true)
    (hm : lookupJ fields "metadata" = none)
    (hok : PriceFeed.fromJson (.obj fields) = .ok f) :
    PriceFeed.fromJson (.obj (fields ++ [("metadata", .null)])) =
      .error ⟨"", .unionOf [.primUndefined, .ref "PriceFeedMetadata"], .null⟩ := by
  have hconv : ∃ R, Convert.toPriceFeed (.obj fields) = .ok R := by
    unfold PriceFeed.fromJson at hok
    split at hok
    · exact absurd hok (by simp)
    · next R hc => exact ⟨R, hc⟩
  obtain ⟨R, hc⟩ := hconv
  obtain ⟨c, ec, ep, e, i, mnp, mv, np, pc, pp, ppt, pr, pid, pt, st, hl1, hl2,
    hl3, hl4, hl5, hl6, _, _, _, _, _, _, _, _, _, _, _⟩ := castPF_ok hnd hc
  have hmm : lookupJ (fields ++ [("metadata", Json.null)]) "metadata" =
      some .null := by
    rw [lookupJ_append_none hm]
    rfl
  have hev6 : PropsEval (fun v t d k => transform 8 v t d k)
      (fields ++ [("metadata", Json.null)]) .jsonToJS
      [("conf", "conf", Typ.primString),
       ("ema_conf", "ema_conf", Typ.primString),
       ("ema_price", "ema_price", Typ.primString),
       ("expo", "expo", Typ.primNumber),
       ("id", "id", Typ.primString),
       ("max_num_publishers", "max_num_publishers", Typ.primNumber)]
      [("conf", Json.str c), ("ema_conf", Json.str ec), ("ema_price", Json.str ep), ("expo", Json.num e), ("id", Json.str i), ("max_num_publishers", Json.num mnp)] :=
    ⟨rfl,
      by
        simp only [Dir.inKey, Dir.outKey]
        rw [lookupJ_append_some hl1 [("metadata", Json.null)]]
        rfl,
      rfl,
      by
        simp only [Dir.inKey, Dir.outKey]
        rw [lookupJ_append_some hl2 [("metadata", Json.null)]]
        rfl,
      rfl,
      by
        simp only [Dir.inKey, Dir.outKey]
        rw [lookupJ_append_some hl3 [("metadata", Json.null)]]
        rfl,
      rfl,
      by
        simp only [Dir.inKey, Dir.outKey]
        rw [lookupJ_append_some hl4 [("metadata", Json.null)]]
        rfl,
      rfl,
      by
        simp only [Dir.inKey, Dir.outKey]
        rw [lookupJ_append_some hl5 [("metadata", Json.null)]]
        rfl,
      rfl,
      by
        simp only [Dir.inKey, Dir.outKey]
        rw [lookupJ_append_some hl6 [("metadata", Json.null)]]
        rfl,
      trivial⟩
  have hpre := props_eval_foldl (fun v t d k => transform 8 v t d k)
    (fields ++ [("metadata", Json.null)]) .jsonToJS _ _ [] hev6
  have hstep7 : propStep (fun v t d k => transform 8 v t d k)
      (fields ++ [("metadata", Json.null)]) .jsonToJS
      (.ok (insertAll [] [("conf", Json.str c), ("ema_conf", Json.str ec), ("ema_price", Json.str ep), ("expo", Json.num e), ("id", Json.str i), ("max_num_publishers", Json.num mnp)]))
      ("metadata", "metadata", .union [.primUndefined, .ref "PriceFeedMetadata"]) =
      .error ⟨"", .unionOf [.primUndefined, .ref "PriceFeedMetadata"], .null⟩ := by
    simp only [propStep, Dir.inKey, Dir.outKey]
    rw [hmm]
    rfl
  have hsteps : transformObjectProps (fun v t d k => transform 8 v t d k) pfProps
      (fields ++ [("metadata", Json.null)]) .jsonToJS =
      .error ⟨"", .unionOf [.primUndefined, .ref "PriceFeedMetadata"], .null⟩ := by
    rw [show transformObjectProps (fun v t d k => transform 8 v t d k) pfProps
        (fields ++ [("metadata", Json.null)]) .jsonToJS =
      ([("conf", "conf", Typ.primString),
       ("ema_conf", "ema_conf", Typ.primString),
       ("ema_price", "ema_price", Typ.primString),
       ("expo", "expo", Typ.primNumber),
       ("id", "id", Typ.primString),
       ("max_num_publishers", "max_num_publishers", Typ.primNumber)] ++
        ("metadata", "metadata",
          Typ.union [.primUndefined, .ref "PriceFeedMetadata"]) ::
        [("num_publishers", "num_publishers", Typ.primNumber),
         ("prev_conf", "prev_conf", Typ.primString),
         ("prev_price", "prev_price", Typ.primString),
         ("prev_publish_time", "prev_publish_time", Typ.primNumber),
         ("price", "price", Typ.primString),
         ("product_id", "product_id", Typ.primString),
         ("publish_time", "publish_time", Typ.primNumber),
         ("status", "status", Typ.ref "PriceStatus")]).foldl
        (propStep (fun v t d k => transform 8 v t d k)
          (fields ++ [("metadata", Json.null)]) .jsonToJS) (.ok []) from rfl,
      List.foldl_append, hpre, List.foldl_cons, hstep7, foldl_propStep_error]
  have hconv2 : Convert.toPriceFeed (.obj (fields ++ [("metadata", Json.null)])) =
      .error ⟨"", .unionOf [.primUndefined, .ref "PriceFeedMetadata"], .null⟩ := by
    rw [show Convert.toPriceFeed (.obj (fields ++ [("metadata", Json.null)])) =
      (match transformObjectProps (fun v t d k => transform 8 v t d k) pfProps
          (fields ++ [("metadata", Json.null)]) .jsonToJS with
       | Except.error e => (Except.error e : Except TErr Json)
       | Except.ok acc =>
           match transformObjectExtra (fun v t d k => transform 8 v t d k) .any
               pfProps (fields ++ [("metadata", Json.null)]) .jsonToJS acc with
           | Except.error e => Except.error e
           | Except.ok acc2 => Except.ok (Json.obj acc2)) from rfl, hsteps]
  rw [show PriceFeed.fromJson (.obj (fields ++ [("metadata", Json.null)])) =
    (match Convert.toPriceFeed (.obj (fields ++ [("metadata", Json.null)])) with
     | Except.error e => (Except.error e : Except TErr PriceFeed)
     | Except.ok R =>
         match extractFeed R with
         | some f2 => Except.ok f2
         | none => Except.error ⟨"", .lit "unreachable", R⟩) from rfl, hconv2]

/-- Witness for C9 at the repository's test input: with `metadata: null`
added, parsing fails with the union error; without it, it succeeds. -/
theorem metadata_null_rejected_witness :
    PriceFeed.fromJson (.obj (sampleJsonFields ++ [("metadata", .null)])) =
      .error ⟨"", .unionOf [.primUndefined, .ref "PriceFeedMetadata"], .null⟩ :=
  metadata_null_rejected sampleJsonFields sampleTrading rfl rfl rfl
